import Mathlib

/-!
# Adafruit_FRAM_SPI: a shallow embedding of the SPI FRAM driver

The driver of `src/Adafruit_FRAM_SPI.cpp` talks to the outside world only through
the Arduino runtime (`pinMode`, `digitalWrite`, `digitalRead`, `SPI.begin`,
`SPI.setClockDivider`, `SPI.setDataMode`, `SPI.transfer`).  The embedding passes an
explicit `Board`, a state machine answering these calls, and records every call in a
trace.  Machine integers are natural numbers reduced modulo `2 ^ width` wherever the
source converts to a fixed-width type.

Conventions.
* `uint8_t` / `uint16_t` parameters are reduced `% 256` / `% 65536` on entry, as the
  implicit conversion of the argument does in C++; the `int8_t` pin parameters of the
  constructors are reduced into `-128 … 127` (`toInt8`).
* `int` is taken wide enough for the loop counter of `write` (`count` does not exceed
  `INT_MAX`), and `addr >> 16` on the 16-bit `addr` is `0`.
* The opcode constants live in `Adafruit_FRAM_SPI.h`, which is not part of the
  sources at hand; they are a parameter (`Opcodes`).
-/

namespace FRAM

/-! ## Arduino constants -/

/-- Arduino `LOW`. -/
def LOW : Nat := 0
/-- Arduino `HIGH`. -/
def HIGH : Nat := 1
/-- Arduino `INPUT`. -/
def INPUT : Nat := 0
/-- Arduino `OUTPUT`. -/
def OUTPUT : Nat := 1
/-- Arduino `SPI_MODE0`. -/
def SPI_MODE0 : Nat := 0

/-- The opcode constants of `Adafruit_FRAM_SPI.h` (enum `opcodes_t`); the header is not
among the sources, so the values are a parameter of every operation. -/
structure Opcodes where
  OPCODE_WREN : Nat
  OPCODE_WRDI : Nat
  OPCODE_RDSR : Nat
  OPCODE_WRSR : Nat
  OPCODE_READ : Nat
  OPCODE_WRITE : Nat
  OPCODE_RDID : Nat
  deriving DecidableEq, Repr

/-- Sample opcode values, those of the Fujitsu MB85RS data sheet; the statements below
hold for every `Opcodes`, and this one serves as a concrete instance. -/
def Opcodes.fujitsu : Opcodes :=
  { OPCODE_WREN := 0x06, OPCODE_WRDI := 0x04, OPCODE_RDSR := 0x05, OPCODE_WRSR := 0x01,
    OPCODE_READ := 0x03, OPCODE_WRITE := 0x02, OPCODE_RDID := 0x9F }

/-! ## The runtime boundary -/

/-- One call into the Arduino runtime together with the value it returned (for the
calls that return one). -/
inductive Wire where
  | pinMode (pin : Int) (mode : Nat)
  | digitalWrite (pin : Int) (val : Nat)
  | digitalRead (pin : Int) (val : Nat)
  | spiBegin
  | spiSetClockDivider (rate : Nat)
  | spiSetDataMode (mode : Nat)
  | spiTransfer (x : Nat) (rx : Nat)
  deriving DecidableEq, Repr

/-- The Arduino runtime and everything wired to the pins, as a state machine over `σ`.
`clockDivider` is the platform's argument of `SPI.setClockDivider` (`SPI_CLOCK_DIV2`,
or `9` on `__SAM3X8E__`). -/
structure Board (σ : Type) where
  pinMode : Int → Nat → σ → σ
  digitalWrite : Int → Nat → σ → σ
  digitalRead : Int → σ → Nat × σ
  spiBegin : σ → σ
  spiSetClockDivider : Nat → σ → σ
  spiSetDataMode : Nat → σ → σ
  spiTransfer : Nat → σ → Nat × σ
  clockDivider : Nat

/-- One step of an operation as seen from the operation's own body: either a runtime
call made directly by the operation, or one call of `SPItransfer` with its argument,
its return value and the runtime calls made inside it. -/
inductive Event where
  | call (w : Wire)
  | exchange (x : Nat) (reply : Nat) (inner : List Wire)
  deriving DecidableEq, Repr

/-- The state threaded through an operation: the board and the trace so far. -/
structure Run (σ : Type) where
  world : σ
  trace : List Event

/-- A run starting with an empty trace. -/
def Run.start {σ : Type} (w : σ) : Run σ := ⟨w, []⟩

/-! ## The controller object -/

/-- The data members of class `Adafruit_FRAM_SPI`. -/
structure Adafruit_FRAM_SPI where
  _cs : Int
  _clk : Int
  _mosi : Int
  _miso : Int
  _framInitialised : Bool
  _addressLengthInBytes : Nat
  deriving DecidableEq, Repr

/-- The value an integer argument takes in an `int8_t` parameter: reduced modulo `2 ^ 8`
into `-128 … 127` (so `255` becomes `-1` and `200` becomes `-56`). -/
def toInt8 (n : Int) : Int := (n + 128) % 256 - 128

/-- Constructor `Adafruit_FRAM_SPI(int8_t cs)`. -/
def Adafruit_FRAM_SPI.hardware (cs : Int) : Adafruit_FRAM_SPI :=
  { _cs := toInt8 cs, _clk := -1, _mosi := -1, _miso := -1,
    _framInitialised := false, _addressLengthInBytes := 2 }

/-- Constructor `Adafruit_FRAM_SPI(int8_t clk, int8_t miso, int8_t mosi, int8_t cs)`.
The body assigns the four pins and the initialisation flag only; the member
`_addressLengthInBytes` keeps whatever the storage of the object held, here `junk`. -/
def Adafruit_FRAM_SPI.software (clk miso mosi cs : Int) (junk : Nat) : Adafruit_FRAM_SPI :=
  { _cs := toInt8 cs, _clk := toInt8 clk, _mosi := toInt8 mosi, _miso := toInt8 miso,
    _framInitialised := false, _addressLengthInBytes := junk % 256 }

/-- Method `getAddressLengthInBytes`. -/
def getAddressLengthInBytes (self : Adafruit_FRAM_SPI) : Nat :=
  self._addressLengthInBytes

/-- Method `setAddressLengthInBytes(uint8_t value)`. -/
def setAddressLengthInBytes (self : Adafruit_FRAM_SPI) (value : Nat) : Adafruit_FRAM_SPI :=
  { self with _addressLengthInBytes := value % 256 }

/-! ## Runtime calls made by the operations -/

section Ops
variable {σ : Type}

/-- The call `digitalWrite(pin, val)` made by an operation body. -/
def digitalWrite (B : Board σ) (pin : Int) (val : Nat) (r : Run σ) : Run σ :=
  ⟨B.digitalWrite pin val r.world, r.trace ++ [Event.call (Wire.digitalWrite pin val)]⟩

/-- The call `pinMode(pin, mode)` made by an operation body. -/
def pinMode (B : Board σ) (pin : Int) (mode : Nat) (r : Run σ) : Run σ :=
  ⟨B.pinMode pin mode r.world, r.trace ++ [Event.call (Wire.pinMode pin mode)]⟩

/-- The software branch of `SPItransfer`: the loop `for (int i=7; i>=0; i--)`, with
`n = i + 1` iterations left.  Returns `reply`, the board and the runtime calls made. -/
def SPItransfer_loop (B : Board σ) (self : Adafruit_FRAM_SPI) (x : Nat) :
    Nat → Nat → σ → List Wire → Nat × σ × List Wire
  | 0, reply, w, log => (reply, w, log)
  | i + 1, reply, w, log =>
    let reply := (reply <<< 1) % 256
    let w := B.digitalWrite self._clk LOW w
    let w := B.digitalWrite self._mosi (x &&& (1 <<< i)) w
    let w := B.digitalWrite self._clk HIGH w
    let (bit, w) := B.digitalRead self._miso w
    let reply := if bit ≠ 0 then reply ||| 1 else reply
    SPItransfer_loop B self x i reply w
      (log ++ [Wire.digitalWrite self._clk LOW,
               Wire.digitalWrite self._mosi (x &&& (1 <<< i)),
               Wire.digitalWrite self._clk HIGH,
               Wire.digitalRead self._miso bit])

/-- Method `SPItransfer(uint8_t x)`: returns the byte received. -/
def SPItransfer (B : Board σ) (self : Adafruit_FRAM_SPI) (x : Nat) (r : Run σ) :
    Nat × Run σ :=
  let x := x % 256
  if self._clk = -1 then
    let (rx, w) := B.spiTransfer x r.world
    (rx % 256, ⟨w, r.trace ++ [Event.exchange x (rx % 256) [Wire.spiTransfer x rx]]⟩)
  else
    let (reply, w, log) := SPItransfer_loop B self x 8 0 r.world []
    (reply, ⟨w, r.trace ++ [Event.exchange x reply log]⟩)

/-! ## Public operations -/

/-- Method `writeEnable(bool enable)`. -/
def writeEnable (ops : Opcodes) (B : Board σ) (self : Adafruit_FRAM_SPI) (enable : Bool)
    (r : Run σ) : Run σ :=
  let r := digitalWrite B self._cs LOW r
  let r := if enable then (SPItransfer B self ops.OPCODE_WREN r).2
           else (SPItransfer B self ops.OPCODE_WRDI r).2
  digitalWrite B self._cs HIGH r

/-- The three address statements that `write8`, `write` and `read8` have in common,
`if(_addressLengthInBytes > 2) SPItransfer((uint8_t)((addr >> 16) & 0xFF));`
`if(_addressLengthInBytes > 1) SPItransfer((uint8_t)((addr >> 8) & 0xFF));`
`SPItransfer((uint8_t)(addr & 0xFF));`, as one function of the 16-bit `addr`; the
operations below spell them out, and `write8_eq`, `write_eq` and `read8_eq` state the
agreement. -/
def sendAddress (B : Board σ) (self : Adafruit_FRAM_SPI) (addr : Nat) (r : Run σ) : Run σ :=
  let r := if self._addressLengthInBytes > 2
           then (SPItransfer B self (((addr >>> 16) &&& 0xFF) % 256) r).2 else r
  let r := if self._addressLengthInBytes > 1
           then (SPItransfer B self (((addr >>> 8) &&& 0xFF) % 256) r).2 else r
  (SPItransfer B self ((addr &&& 0xFF) % 256) r).2

/-- Method `write8(uint16_t addr, uint8_t value)`. -/
def write8 (ops : Opcodes) (B : Board σ) (self : Adafruit_FRAM_SPI) (addr value : Nat)
    (r : Run σ) : Run σ :=
  let addr := addr % 65536
  let value := value % 256
  let r := digitalWrite B self._cs LOW r
  let r := (SPItransfer B self ops.OPCODE_WRITE r).2
  let r := if self._addressLengthInBytes > 2
           then (SPItransfer B self (((addr >>> 16) &&& 0xFF) % 256) r).2 else r
  let r := if self._addressLengthInBytes > 1
           then (SPItransfer B self (((addr >>> 8) &&& 0xFF) % 256) r).2 else r
  let r := (SPItransfer B self ((addr &&& 0xFF) % 256) r).2
  let r := (SPItransfer B self value r).2
  digitalWrite B self._cs HIGH r

/-- The loop `for (int i = 0; i < count; i++) SPItransfer(values[i]);` of `write`, with
`k = count - i` iterations left.  `values[i]` past the end of the buffer is undefined in
C++; the model reads `0` there, and every statement about `write` assumes
`count ≤ values.length`. -/
def write_loop (B : Board σ) (self : Adafruit_FRAM_SPI) (values : List Nat) :
    Nat → Nat → Run σ → Run σ
  | 0, _, r => r
  | k + 1, i, r => write_loop B self values k (i + 1) (SPItransfer B self (values.getD i 0) r).2

/-- Method `write(uint16_t addr, const uint8_t *values, size_t count)`. -/
def write (ops : Opcodes) (B : Board σ) (self : Adafruit_FRAM_SPI) (addr : Nat)
    (values : List Nat) (count : Nat) (r : Run σ) : Run σ :=
  let addr := addr % 65536
  let r := digitalWrite B self._cs LOW r
  let r := (SPItransfer B self ops.OPCODE_WRITE r).2
  let r := if self._addressLengthInBytes > 2
           then (SPItransfer B self (((addr >>> 16) &&& 0xFF) % 256) r).2 else r
  let r := if self._addressLengthInBytes > 1
           then (SPItransfer B self (((addr >>> 8) &&& 0xFF) % 256) r).2 else r
  let r := (SPItransfer B self ((addr &&& 0xFF) % 256) r).2
  let r := write_loop B self values count 0 r
  digitalWrite B self._cs HIGH r

/-- Method `read8(uint16_t addr)`. -/
def read8 (ops : Opcodes) (B : Board σ) (self : Adafruit_FRAM_SPI) (addr : Nat)
    (r : Run σ) : Nat × Run σ :=
  let addr := addr % 65536
  let r := digitalWrite B self._cs LOW r
  let r := (SPItransfer B self ops.OPCODE_READ r).2
  let r := if self._addressLengthInBytes > 2
           then (SPItransfer B self (((addr >>> 16) &&& 0xFF) % 256) r).2 else r
  let r := if self._addressLengthInBytes > 1
           then (SPItransfer B self (((addr >>> 8) &&& 0xFF) % 256) r).2 else r
  let r := (SPItransfer B self ((addr &&& 0xFF) % 256) r).2
  let (x, r) := SPItransfer B self 0 r
  let r := digitalWrite B self._cs HIGH r
  (x, r)

/-- Method `getDeviceID(uint8_t *manufacturerID, uint16_t *productID)`; the two output
parameters are returned as a pair. -/
def getDeviceID (ops : Opcodes) (B : Board σ) (self : Adafruit_FRAM_SPI) (r : Run σ) :
    (Nat × Nat) × Run σ :=
  let r := digitalWrite B self._cs LOW r
  let r := (SPItransfer B self ops.OPCODE_RDID r).2
  let (a0, r) := SPItransfer B self 0 r
  let (_a1, r) := SPItransfer B self 0 r
  let (a2, r) := SPItransfer B self 0 r
  let (a3, r) := SPItransfer B self 0 r
  let r := digitalWrite B self._cs HIGH r
  ((a0 % 256, ((a2 <<< 8) + a3) % 65536), r)

/-- Method `getStatusRegister()`. -/
def getStatusRegister (ops : Opcodes) (B : Board σ) (self : Adafruit_FRAM_SPI) (r : Run σ) :
    Nat × Run σ :=
  let r := digitalWrite B self._cs LOW r
  let r := (SPItransfer B self ops.OPCODE_RDSR r).2
  let (reg, r) := SPItransfer B self 0 r
  let r := digitalWrite B self._cs HIGH r
  (reg, r)

/-- Method `setStatusRegister(uint8_t value)`. -/
def setStatusRegister (ops : Opcodes) (B : Board σ) (self : Adafruit_FRAM_SPI) (value : Nat)
    (r : Run σ) : Run σ :=
  let value := value % 256
  let r := digitalWrite B self._cs LOW r
  let r := (SPItransfer B self ops.OPCODE_WRSR r).2
  let r := (SPItransfer B self value r).2
  digitalWrite B self._cs HIGH r

/-- Method `begin()`: returns the result, the updated object and the run. -/
def begin (ops : Opcodes) (B : Board σ) (self : Adafruit_FRAM_SPI) (r : Run σ) :
    Bool × Adafruit_FRAM_SPI × Run σ :=
  let r := pinMode B self._cs OUTPUT r
  let r := digitalWrite B self._cs HIGH r
  let r : Run σ :=
    if self._clk = -1 then
      let r : Run σ := ⟨B.spiBegin r.world, r.trace ++ [Event.call Wire.spiBegin]⟩
      let r : Run σ := ⟨B.spiSetClockDivider B.clockDivider r.world,
                        r.trace ++ [Event.call (Wire.spiSetClockDivider B.clockDivider)]⟩
      ⟨B.spiSetDataMode SPI_MODE0 r.world,
        r.trace ++ [Event.call (Wire.spiSetDataMode SPI_MODE0)]⟩
    else
      let r := pinMode B self._clk OUTPUT r
      let r := pinMode B self._mosi OUTPUT r
      pinMode B self._miso INPUT r
  let (_ids, r) := getDeviceID ops B self r
  (true, { self with _framInitialised := true }, r)

end Ops

/-! ## Boards used in the statements

Two boards stand for the outside world.  `scriptBoard` answers every `SPI.transfer` and
every `digitalRead` with the next value of a list, and so realises any sequence of
received bytes.  `chipBoard` wires a reference FRAM chip to the controller's pins; it is
the environment of the round-trip statements.  The chip follows the description of the
chip family in the specification: chip-select is active low and frames one command,
the first byte of a frame is the opcode, `READ`/`WRITE` are followed by the address bytes
(most significant first) and the data, the address pointer increments with every data
byte, a write is committed on the rising edge of chip-select and only while the
write-enable latch (set by `WREN`, cleared by `WRDI`) is set, and bits are exchanged most
significant first, sampled on the rising clock edge (SPI mode 0). -/

/-- A board that answers reads and transfers from a list (`0` once it is used up) and
ignores everything else. -/
def scriptBoard : Board (List Nat) where
  pinMode := fun _ _ s => s
  digitalWrite := fun _ _ s => s
  digitalRead := fun _ s => (s.headD 0, s.tail)
  spiBegin := fun s => s
  spiSetClockDivider := fun _ s => s
  spiSetDataMode := fun _ s => s
  spiTransfer := fun _ s => (s.headD 0, s.tail)
  clockDivider := 4

/-- The reference chip at byte level: memory contents by address, the write-enable
latch, and the bytes received since chip-select went low (`none` while deselected). -/
structure Chip where
  mem : Nat → Nat
  wel : Bool
  frame : Option (List Nat)

/-- The address encoded by address bytes sent most significant first. -/
def Chip.addrOf (bs : List Nat) : Nat := bs.foldl (fun acc b => acc * 256 + b) 0

/-- Storing a block: each byte goes to the address pointer, which then increments and
rolls over at the end of the address space of `size` bytes. -/
def Chip.store (size : Nat) (mem : Nat → Nat) (p : Nat) : List Nat → Nat → Nat
  | [] => mem
  | d :: ds => Chip.store size (fun a => if a = p % size then d else mem a) ((p + 1) % size) ds

/-- The byte the chip shifts out during the next exchange: inside a `READ` frame whose
`w` address bytes are complete, the memory cell under the address pointer; `0` otherwise. -/
def Chip.reply (ops : Opcodes) (w : Nat) (c : Chip) : Nat :=
  match c.frame with
  | some (op :: rest) =>
    if op = ops.OPCODE_READ % 256 ∧ w ≤ rest.length then
      c.mem ((Chip.addrOf (rest.take w) + (rest.length - w)) % 256 ^ w)
    else 0
  | _ => 0

/-- The chip has clocked in the byte `x`. -/
def Chip.absorb (x : Nat) (c : Chip) : Chip :=
  match c.frame with
  | some f => { c with frame := some (f ++ [x]) }
  | none => c

/-- Falling edge of chip-select: a new frame starts. -/
def Chip.select (c : Chip) : Chip :=
  match c.frame with
  | some _ => c
  | none => { c with frame := some [] }

/-- Rising edge of chip-select: the frame ends and takes effect. -/
def Chip.deselect (ops : Opcodes) (w : Nat) (c : Chip) : Chip :=
  match c.frame with
  | some (op :: rest) =>
    if op = ops.OPCODE_WRITE % 256 ∧ c.wel = true ∧ w ≤ rest.length then
      { c with mem := Chip.store (256 ^ w) c.mem (Chip.addrOf (rest.take w)) (rest.drop w),
               frame := none }
    else if op = ops.OPCODE_WREN % 256 ∧ rest = [] then { c with wel := true, frame := none }
    else if op = ops.OPCODE_WRDI % 256 ∧ rest = [] then { c with wel := false, frame := none }
    else { c with frame := none }
  | _ => { c with frame := none }

/-- The chip together with its serial interface: the levels last seen on clock and
data-in, the number of bits clocked in since chip-select went low, the input shift
register and the byte being shifted out. -/
structure Wired where
  chip : Chip
  clk : Nat
  mosi : Nat
  nbits : Nat
  shiftIn : Nat
  out : Nat

/-- A deselected, write-enabled chip holding `mem`. -/
def Wired.idle (mem : Nat → Nat) : Wired :=
  { chip := { mem := mem, wel := true, frame := none },
    clk := 0, mosi := 0, nbits := 0, shiftIn := 0, out := 0 }

/-- The chip reacting to a level written to one of its input lines. -/
def Wired.onWrite (ops : Opcodes) (w : Nat) (cs clk mosi : Int) (pin : Int) (val : Nat)
    (s : Wired) : Wired :=
  if pin = cs then
    if val = 0 then
      match s.chip.frame with
      | some _ => s
      | none => { s with chip := s.chip.select, nbits := 0, shiftIn := 0 }
    else { s with chip := s.chip.deselect ops w }
  else if pin = clk then
    match s.chip.frame with
    | none => { s with clk := val }
    | some _ =>
      if val = 0 then
        if s.nbits % 8 = 0 then { s with clk := 0, out := s.chip.reply ops w }
        else { s with clk := 0 }
      else if s.clk = 0 then
        let sh := (s.shiftIn * 2 + (if s.mosi ≠ 0 then 1 else 0)) % 256
        if (s.nbits + 1) % 8 = 0 then
          { s with clk := val, nbits := s.nbits + 1, shiftIn := sh, chip := s.chip.absorb sh }
        else { s with clk := val, nbits := s.nbits + 1, shiftIn := sh }
      else { s with clk := val }
  else if pin = mosi then { s with mosi := val }
  else s

/-- The level the chip drives on its data-out line: after the `k`-th rising clock edge
of a byte, bit `8 - k` of the byte being shifted out. -/
def Wired.onRead (s : Wired) : Nat :=
  (s.out >>> (7 - (s.nbits + 7) % 8)) &&& 1

/-- The reference chip of address width `w` wired to the pins of `self`: chip-select on
`_cs`; in software mode clock, data-in and data-out on `_clk`, `_mosi` and `_miso`; in
hardware mode the SPI peripheral exchanges whole bytes with the chip. -/
def chipBoard (ops : Opcodes) (w : Nat) (self : Adafruit_FRAM_SPI) : Board Wired where
  pinMode := fun _ _ s => s
  digitalWrite := fun pin val s => Wired.onWrite ops w self._cs self._clk self._mosi pin val s
  digitalRead := fun pin s => (if pin = self._miso then Wired.onRead s else 0, s)
  spiBegin := fun s => s
  spiSetClockDivider := fun _ s => s
  spiSetDataMode := fun _ s => s
  spiTransfer := fun x s =>
    match s.chip.frame with
    | some _ => (s.chip.reply ops w, { s with chip := s.chip.absorb x })
    | none => (0, s)
  clockDivider := 4

/-- The chip is selected at a byte boundary: it holds `mem`, its latch is `wel`, and it
has received the bytes `f` since chip-select went low. -/
def InFrame (s : Wired) (mem : Nat → Nat) (wel : Bool) (f : List Nat) : Prop :=
  s.chip = { mem := mem, wel := wel, frame := some f } ∧ s.nbits % 8 = 0

/-- The chip is deselected, holds `mem` and its latch is `wel`. -/
def Idle (s : Wired) (mem : Nat → Nat) (wel : Bool) : Prop :=
  s.chip = { mem := mem, wel := wel, frame := none }

/-- The wiring the reference chip needs: in software mode chip-select, clock and
data-out are three different lines; hardware mode asks nothing. -/
def Wiring (self : Adafruit_FRAM_SPI) : Prop :=
  self._clk = -1 ∨
    (self._clk ≠ self._cs ∧ self._mosi ≠ self._cs ∧ self._mosi ≠ self._clk)

instance (self : Adafruit_FRAM_SPI) : Decidable (Wiring self) :=
  inferInstanceAs (Decidable (self._clk = -1 ∨
    (self._clk ≠ self._cs ∧ self._mosi ≠ self._cs ∧ self._mosi ≠ self._clk)))

/-! ## Observations on a trace -/

/-- What one event puts on the bus, with the received data dropped: a runtime call made
by the operation body, or one byte handed to `SPItransfer`. -/
inductive Out where
  | pin (w : Wire)
  | byte (x : Nat)
  deriving DecidableEq, Repr

/-- The bus-side view of an event. -/
def Event.out : Event → Out
  | Event.call w => Out.pin w
  | Event.exchange x _ _ => Out.byte x

/-- The bus-side view of a trace. -/
def outs (t : List Event) : List Out := t.map Event.out

/-- The bytes transmitted, in order: the arguments of the `SPItransfer` calls. -/
def txBytes : List Event → List Nat
  | [] => []
  | Event.call _ :: t => txBytes t
  | Event.exchange x _ _ :: t => x :: txBytes t

/-- The bytes received, in order: the return values of the `SPItransfer` calls. -/
def rxBytes : List Event → List Nat
  | [] => []
  | Event.call _ :: t => rxBytes t
  | Event.exchange _ reply _ :: t => reply :: rxBytes t

/-- The runtime calls of a trace in the order made, those inside `SPItransfer` included. -/
def wires : List Event → List Wire
  | [] => []
  | Event.call w :: t => w :: wires t
  | Event.exchange _ _ inner :: t => inner ++ wires t

/-- The levels written to pin `cs`, in order, in a list of runtime calls. -/
def csLevels (cs : Int) : List Wire → List Nat
  | [] => []
  | Wire.digitalWrite pin val :: t => if pin = cs then val :: csLevels cs t else csLevels cs t
  | _ :: t => csLevels cs t

/-- The run is inside a frame opened on `cs`: chip-select was driven low first and only
bytes were exchanged since. -/
def Opened (cs : Int) (t : List Event) : Prop :=
  outs t = [Out.pin (Wire.digitalWrite cs LOW)] ++ (txBytes t).map Out.byte

/-- One chip-select pair brackets the trace: on the bus side the trace is chip-select
driven low, then one byte for each exchange and nothing else, then chip-select driven
high. -/
def Bracketed (cs : Int) (t : List Event) : Prop :=
  outs t = [Out.pin (Wire.digitalWrite cs LOW)] ++ (txBytes t).map Out.byte
            ++ [Out.pin (Wire.digitalWrite cs HIGH)]

instance (cs : Int) (t : List Event) : Decidable (Bracketed cs t) :=
  inferInstanceAs (Decidable (outs t = [Out.pin (Wire.digitalWrite cs LOW)]
    ++ (txBytes t).map Out.byte ++ [Out.pin (Wire.digitalWrite cs HIGH)]))

/-- The address bytes the three framed operations hand to `SPItransfer`, read off the
two guarded calls and the unguarded one; `n` is `_addressLengthInBytes` and `a` the
16-bit `addr`. -/
def sentAddress (n a : Nat) : List Nat :=
  (if n > 2 then [((a >>> 16) &&& 0xFF) % 256] else []) ++
  (if n > 1 then [((a >>> 8) &&& 0xFF) % 256] else []) ++
  [(a &&& 0xFF) % 256]

/-- The `w` least-significant bytes of `A`, most significant first (the address format
of the specification, section 6). -/
def addressBytes (w A : Nat) : List Nat :=
  (List.range w).reverse.map (fun k => A / 256 ^ k % 256)

/-! ## Calls on the controller

A caller drives the controller through its public operations.  `Op` names one call with
its arguments, `Op.exec` performs it on the object and the run, and `Op.execAll` performs
a sequence of calls. -/

/-- One call of a public operation, with its arguments. -/
inductive Op where
  | begin
  | getAddressLengthInBytes
  | setAddressLengthInBytes (value : Nat)
  | writeEnable (enable : Bool)
  | write8 (addr value : Nat)
  | write (addr : Nat) (values : List Nat) (count : Nat)
  | read8 (addr : Nat)
  | getDeviceID
  | getStatusRegister
  | setStatusRegister (value : Nat)
  deriving DecidableEq, Repr

/-- What a call hands back to the caller. -/
inductive Ret where
  | void
  | bool (b : Bool)
  | byte (n : Nat)
  | ids (manufacturerID productID : Nat)
  deriving DecidableEq, Repr

/-- Performing one call: the value returned, the object afterwards, the run afterwards.
Only `begin` and `setAddressLengthInBytes` assign to a data member. -/
def Op.exec {σ : Type} (ops : Opcodes) (B : Board σ) :
    Op → Adafruit_FRAM_SPI → Run σ → Ret × Adafruit_FRAM_SPI × Run σ
  | Op.begin, self, r =>
    (Ret.bool (FRAM.begin ops B self r).1, (FRAM.begin ops B self r).2.1,
      (FRAM.begin ops B self r).2.2)
  | Op.getAddressLengthInBytes, self, r =>
    (Ret.byte (FRAM.getAddressLengthInBytes self), self, r)
  | Op.setAddressLengthInBytes value, self, r =>
    (Ret.void, FRAM.setAddressLengthInBytes self value, r)
  | Op.writeEnable enable, self, r => (Ret.void, self, FRAM.writeEnable ops B self enable r)
  | Op.write8 addr value, self, r => (Ret.void, self, FRAM.write8 ops B self addr value r)
  | Op.write addr values count, self, r =>
    (Ret.void, self, FRAM.write ops B self addr values count r)
  | Op.read8 addr, self, r =>
    (Ret.byte (FRAM.read8 ops B self addr r).1, self, (FRAM.read8 ops B self addr r).2)
  | Op.getDeviceID, self, r =>
    (Ret.ids (FRAM.getDeviceID ops B self r).1.1 (FRAM.getDeviceID ops B self r).1.2, self,
      (FRAM.getDeviceID ops B self r).2)
  | Op.getStatusRegister, self, r =>
    (Ret.byte (FRAM.getStatusRegister ops B self r).1, self,
      (FRAM.getStatusRegister ops B self r).2)
  | Op.setStatusRegister value, self, r =>
    (Ret.void, self, FRAM.setStatusRegister ops B self value r)

/-- Performing a sequence of calls, first to last. -/
def Op.execAll {σ : Type} (ops : Opcodes) (B : Board σ) :
    List Op → Adafruit_FRAM_SPI → Run σ → Adafruit_FRAM_SPI × Run σ
  | [], self, r => (self, r)
  | op :: rest, self, r =>
    Op.execAll ops B rest (op.exec ops B self r).2.1 (op.exec ops B self r).2.2

/-! ## The two transfer strategies on the trace -/

/-- The pin-level calls of one software exchange of the byte `x`, for bit `i - 1` down to
bit `0`, with `bs` the levels sampled on data-in: for each bit, clock low, data-out to the
bit of `x`, clock high, sample data-in (specification, section 4.2). -/
def bitBang (clk mosi miso : Int) (x : Nat) : Nat → List Nat → List Wire
  | i + 1, b :: bs =>
    [Wire.digitalWrite clk LOW, Wire.digitalWrite mosi (x &&& (1 <<< i)),
     Wire.digitalWrite clk HIGH, Wire.digitalRead miso b] ++ bitBang clk mosi miso x i bs
  | _, _ => []

/-- The byte assembled from sampled levels, first sampled bit most significant. -/
def assemble (bs : List Nat) : Nat :=
  bs.foldl (fun acc b => 2 * acc + (if b ≠ 0 then 1 else 0)) 0

/-- The event went through the hardware strategy: calls of the operation body apart, it
is an exchange whose only runtime call is `SPI.transfer` of its byte. -/
def Event.hardware : Event → Prop
  | Event.call _ => True
  | Event.exchange x _ inner => ∃ rx, inner = [Wire.spiTransfer x rx]

/-- The event went through the software strategy on the given pins: calls of the
operation body apart, it is an exchange made of the eight bit steps of `bitBang`. -/
def Event.software (clk mosi miso : Int) : Event → Prop
  | Event.call _ => True
  | Event.exchange x _ inner => ∃ bs, bs.length = 8 ∧ inner = bitBang clk mosi miso x 8 bs

/-- Every byte exchange of the trace went through the strategy that the clock pin
selects: hardware when it is `-1`, software otherwise. -/
def ByStrategy (clk mosi miso : Int) (t : List Event) : Prop :=
  ∀ e ∈ t, (clk = -1 → e.hardware) ∧ (clk ≠ -1 → e.software clk mosi miso)

/-- The pin a runtime call is about, if any. -/
def Wire.pin : Wire → Option Int
  | Wire.pinMode p _ => some p
  | Wire.digitalWrite p _ => some p
  | Wire.digitalRead p _ => some p
  | _ => none

/-- The levels driven on pin `mosi`, in order (`true` for high). -/
def presented (mosi : Int) : List Wire → List Bool
  | [] => []
  | Wire.digitalWrite pin val :: t =>
    if pin = mosi then decide (val ≠ 0) :: presented mosi t else presented mosi t
  | _ :: t => presented mosi t

/-- The reference byte exchange of the specification (section 4.2, "exchange one byte,
full-duplex, MSB-first"): bit 7 down to bit 0 of `x` are presented in that order, and the
byte returned is made of the eight sampled bits, the first sampled being bit 7. -/
def referenceExchange (x : Nat) (bits : List Bool) : List Bool × Nat :=
  ((List.range 8).reverse.map (fun i => x.testBit i),
   bits.foldl (fun acc b => 2 * acc + b.toNat) 0)

/-- A board with data-out wired back to data-in: `digitalRead` on `miso` returns the
level last driven on `mosi`, and the SPI peripheral receives the byte it sends. -/
def loopbackBoard (mosi miso : Int) : Board Nat where
  pinMode := fun _ _ s => s
  digitalWrite := fun pin val s => if pin = mosi then (if val ≠ 0 then HIGH else LOW) else s
  digitalRead := fun pin s => (if pin = miso then s else LOW, s)
  spiBegin := fun s => s
  spiSetClockDivider := fun _ s => s
  spiSetDataMode := fun _ s => s
  spiTransfer := fun x s => (x, s)
  clockDivider := 4

/-- Two controller states that the framed operations cannot tell apart: same pins, and
the two comparisons of the address width (`> 2`, `> 1`) come out the same. -/
def SameFraming (a b : Adafruit_FRAM_SPI) : Prop :=
  a._cs = b._cs ∧ a._clk = b._clk ∧ a._mosi = b._mosi ∧ a._miso = b._miso ∧
  (a._addressLengthInBytes > 2 ↔ b._addressLengthInBytes > 2) ∧
  (a._addressLengthInBytes > 1 ↔ b._addressLengthInBytes > 1)

/-- The bus configuration is whole: the three software-SPI pins are all unset, or all
set. -/
def WholeConfig (self : Adafruit_FRAM_SPI) : Prop :=
  (self._clk = -1 ∧ self._mosi = -1 ∧ self._miso = -1) ∨
  (self._clk ≠ -1 ∧ self._mosi ≠ -1 ∧ self._miso ≠ -1)

instance (self : Adafruit_FRAM_SPI) : Decidable (WholeConfig self) :=
  inferInstanceAs (Decidable ((self._clk = -1 ∧ self._mosi = -1 ∧ self._miso = -1) ∨
    (self._clk ≠ -1 ∧ self._mosi ≠ -1 ∧ self._miso ≠ -1)))

end FRAM

/-! ## Basic facts about traces and about the operations -/

namespace FRAM

section Lemmas
variable {σ : Type}

theorem outs_nil : outs [] = [] := rfl

theorem outs_append (s t : List Event) : outs (s ++ t) = outs s ++ outs t := by
  simp [outs]

theorem txBytes_append (s t : List Event) : txBytes (s ++ t) = txBytes s ++ txBytes t := by
  induction s with
  | nil => rfl
  | cons e s ih => cases e <;> simp [txBytes, ih]

theorem rxBytes_append (s t : List Event) : rxBytes (s ++ t) = rxBytes s ++ rxBytes t := by
  induction s with
  | nil => rfl
  | cons e s ih => cases e <;> simp [rxBytes, ih]

/-- Every exchange transmits one byte and receives one byte. -/
theorem rxBytes_length (t : List Event) : (rxBytes t).length = (txBytes t).length := by
  induction t with
  | nil => rfl
  | cons e t ih => cases e <;> simp [rxBytes, txBytes, ih]

theorem wires_append (s t : List Event) : wires (s ++ t) = wires s ++ wires t := by
  induction s with
  | nil => rfl
  | cons e s ih => cases e <;> simp [wires, ih]

theorem csLevels_append (cs : Int) (s t : List Wire) :
    csLevels cs (s ++ t) = csLevels cs s ++ csLevels cs t := by
  induction s with
  | nil => rfl
  | cons e s ih =>
    cases e <;> simp [csLevels, ih]
    split <;> simp

/-- The loop of the software exchange writes only to `_clk` and `_mosi`. -/
theorem SPItransfer_loop_csLevels (B : Board σ) (self : Adafruit_FRAM_SPI) (x : Nat)
    (h : self._cs ≠ self._clk ∧ self._cs ≠ self._mosi) (n reply : Nat) (w : σ)
    (log : List Wire) :
    csLevels self._cs (SPItransfer_loop B self x n reply w log).2.2 = csLevels self._cs log := by
  induction n generalizing reply w log with
  | zero => rfl
  | succ i ih =>
    simp only [SPItransfer_loop]
    rw [ih, csLevels_append]
    simp [csLevels, Ne.symm h.1, Ne.symm h.2]

/-- One call of `SPItransfer` appends exactly one exchange event; it carries the argument
as a byte and the returned value, and its inner calls leave chip-select alone. -/
theorem SPItransfer_trace (B : Board σ) (self : Adafruit_FRAM_SPI) (x : Nat) (r : Run σ) :
    ∃ inner, (SPItransfer B self x r).2.trace
        = r.trace ++ [Event.exchange (x % 256) (SPItransfer B self x r).1 inner] ∧
      ((self._clk = -1 ∨ (self._cs ≠ self._clk ∧ self._cs ≠ self._mosi)) →
        csLevels self._cs inner = []) := by
  unfold SPItransfer
  by_cases hc : self._clk = -1
  · simp only [hc, if_true]
    exact ⟨_, rfl, fun _ => rfl⟩
  · simp only [hc, if_false]
    refine ⟨_, rfl, fun h => ?_⟩
    rcases h with h | h
    · exact h.elim
    · rw [SPItransfer_loop_csLevels B self _ h]; rfl

theorem outs_SPItransfer (B : Board σ) (self : Adafruit_FRAM_SPI) (x : Nat) (r : Run σ) :
    outs (SPItransfer B self x r).2.trace = outs r.trace ++ [Out.byte (x % 256)] := by
  obtain ⟨inner, h, _⟩ := SPItransfer_trace B self x r
  rw [h, outs_append]; rfl

theorem txBytes_SPItransfer (B : Board σ) (self : Adafruit_FRAM_SPI) (x : Nat) (r : Run σ) :
    txBytes (SPItransfer B self x r).2.trace = txBytes r.trace ++ [x % 256] := by
  obtain ⟨inner, h, _⟩ := SPItransfer_trace B self x r
  rw [h, txBytes_append]; rfl

theorem rxBytes_SPItransfer (B : Board σ) (self : Adafruit_FRAM_SPI) (x : Nat) (r : Run σ) :
    rxBytes (SPItransfer B self x r).2.trace
      = rxBytes r.trace ++ [(SPItransfer B self x r).1] := by
  obtain ⟨inner, h, _⟩ := SPItransfer_trace B self x r
  rw [h, rxBytes_append]; rfl

theorem csLevels_SPItransfer (B : Board σ) (self : Adafruit_FRAM_SPI) (x : Nat) (r : Run σ)
    (hp : self._clk = -1 ∨ (self._cs ≠ self._clk ∧ self._cs ≠ self._mosi)) :
    csLevels self._cs (wires (SPItransfer B self x r).2.trace)
      = csLevels self._cs (wires r.trace) := by
  obtain ⟨inner, h, hin⟩ := SPItransfer_trace B self x r
  rw [h, wires_append, csLevels_append]
  simp [wires, hin hp]

theorem outs_digitalWrite (B : Board σ) (pin : Int) (val : Nat) (r : Run σ) :
    outs (digitalWrite B pin val r).trace
      = outs r.trace ++ [Out.pin (Wire.digitalWrite pin val)] := by
  simp [digitalWrite, outs, Event.out]

theorem txBytes_digitalWrite (B : Board σ) (pin : Int) (val : Nat) (r : Run σ) :
    txBytes (digitalWrite B pin val r).trace = txBytes r.trace := by
  simp [digitalWrite, txBytes_append, txBytes]

theorem rxBytes_digitalWrite (B : Board σ) (pin : Int) (val : Nat) (r : Run σ) :
    rxBytes (digitalWrite B pin val r).trace = rxBytes r.trace := by
  simp [digitalWrite, rxBytes_append, rxBytes]

theorem csLevels_digitalWrite (B : Board σ) (cs : Int) (val : Nat) (r : Run σ) :
    csLevels cs (wires (digitalWrite B cs val r).trace)
      = csLevels cs (wires r.trace) ++ [val] := by
  simp [digitalWrite, wires_append, csLevels_append, wires, csLevels]

/-! ### The address part -/

theorem write8_eq (ops : Opcodes) (B : Board σ) (self : Adafruit_FRAM_SPI) (addr value : Nat)
    (r : Run σ) :
    write8 ops B self addr value r
      = digitalWrite B self._cs HIGH
          (SPItransfer B self (value % 256)
            (sendAddress B self (addr % 65536)
              (SPItransfer B self ops.OPCODE_WRITE (digitalWrite B self._cs LOW r)).2)).2 :=
  rfl

theorem write_eq (ops : Opcodes) (B : Board σ) (self : Adafruit_FRAM_SPI) (addr : Nat)
    (values : List Nat) (count : Nat) (r : Run σ) :
    write ops B self addr values count r
      = digitalWrite B self._cs HIGH
          (write_loop B self values count 0
            (sendAddress B self (addr % 65536)
              (SPItransfer B self ops.OPCODE_WRITE (digitalWrite B self._cs LOW r)).2)) :=
  rfl

theorem read8_eq (ops : Opcodes) (B : Board σ) (self : Adafruit_FRAM_SPI) (addr : Nat)
    (r : Run σ) :
    read8 ops B self addr r
      = ((SPItransfer B self 0
            (sendAddress B self (addr % 65536)
              (SPItransfer B self ops.OPCODE_READ (digitalWrite B self._cs LOW r)).2)).1,
         digitalWrite B self._cs HIGH
          (SPItransfer B self 0
            (sendAddress B self (addr % 65536)
              (SPItransfer B self ops.OPCODE_READ (digitalWrite B self._cs LOW r)).2)).2) :=
  rfl

theorem outs_sendAddress (B : Board σ) (self : Adafruit_FRAM_SPI) (a : Nat) (r : Run σ) :
    outs (sendAddress B self a r).trace
      = outs r.trace ++ (sentAddress self._addressLengthInBytes a).map Out.byte := by
  unfold sendAddress sentAddress
  by_cases h2 : self._addressLengthInBytes > 2 <;>
  by_cases h1 : self._addressLengthInBytes > 1 <;>
  simp [h1, h2, outs_SPItransfer]

theorem txBytes_sendAddress (B : Board σ) (self : Adafruit_FRAM_SPI) (a : Nat) (r : Run σ) :
    txBytes (sendAddress B self a r).trace
      = txBytes r.trace ++ sentAddress self._addressLengthInBytes a := by
  unfold sendAddress sentAddress
  by_cases h2 : self._addressLengthInBytes > 2 <;>
  by_cases h1 : self._addressLengthInBytes > 1 <;>
  simp [h1, h2, txBytes_SPItransfer]

theorem csLevels_sendAddress (B : Board σ) (self : Adafruit_FRAM_SPI) (a : Nat) (r : Run σ)
    (hp : self._clk = -1 ∨ (self._cs ≠ self._clk ∧ self._cs ≠ self._mosi)) :
    csLevels self._cs (wires (sendAddress B self a r).trace)
      = csLevels self._cs (wires r.trace) := by
  unfold sendAddress
  by_cases h2 : self._addressLengthInBytes > 2 <;>
  by_cases h1 : self._addressLengthInBytes > 1 <;>
  simp [h1, h2, csLevels_SPItransfer _ _ _ _ hp]

/-! ### The data loop of `write` -/

theorem outs_write_loop (B : Board σ) (self : Adafruit_FRAM_SPI) (values : List Nat)
    (k i : Nat) (r : Run σ) (h : i + k ≤ values.length) :
    outs (write_loop B self values k i r).trace
      = outs r.trace ++ (((values.drop i).take k).map (fun v => Out.byte (v % 256))) := by
  induction k generalizing i r with
  | zero => simp [write_loop]
  | succ k ih =>
    have hi : i < values.length := by omega
    simp only [write_loop]
    rw [ih (i + 1) _ (by omega), outs_SPItransfer, List.drop_eq_getElem_cons hi,
      List.getD_eq_getElem _ _ hi]
    simp only [List.take_succ_cons, List.map_cons, List.append_assoc, List.singleton_append]

theorem txBytes_write_loop (B : Board σ) (self : Adafruit_FRAM_SPI) (values : List Nat)
    (k i : Nat) (r : Run σ) (h : i + k ≤ values.length) :
    txBytes (write_loop B self values k i r).trace
      = txBytes r.trace ++ (((values.drop i).take k).map (fun v => v % 256)) := by
  induction k generalizing i r with
  | zero => simp [write_loop]
  | succ k ih =>
    have hi : i < values.length := by omega
    simp only [write_loop]
    rw [ih (i + 1) _ (by omega), txBytes_SPItransfer, List.drop_eq_getElem_cons hi,
      List.getD_eq_getElem _ _ hi]
    simp only [List.take_succ_cons, List.map_cons, List.append_assoc, List.singleton_append]

theorem csLevels_write_loop (B : Board σ) (self : Adafruit_FRAM_SPI) (values : List Nat)
    (k i : Nat) (r : Run σ)
    (hp : self._clk = -1 ∨ (self._cs ≠ self._clk ∧ self._cs ≠ self._mosi)) :
    csLevels self._cs (wires (write_loop B self values k i r).trace)
      = csLevels self._cs (wires r.trace) := by
  induction k generalizing i r with
  | zero => simp [write_loop]
  | succ k ih => simp only [write_loop]; rw [ih, csLevels_SPItransfer _ _ _ _ hp]

/-! ### Frames opened by chip-select -/

theorem opened_start (B : Board σ) (cs : Int) (world : σ) :
    Opened cs (digitalWrite B cs LOW (Run.start world)).trace := by
  simp [Opened, outs_digitalWrite, txBytes_digitalWrite, Run.start, outs_nil, txBytes]

theorem opened_SPItransfer (B : Board σ) (self : Adafruit_FRAM_SPI) (cs : Int) (x : Nat)
    (r : Run σ) (h : Opened cs r.trace) : Opened cs (SPItransfer B self x r).2.trace := by
  unfold Opened at *
  rw [outs_SPItransfer, txBytes_SPItransfer, h]
  simp

theorem opened_sendAddress (B : Board σ) (self : Adafruit_FRAM_SPI) (cs : Int) (a : Nat)
    (r : Run σ) (h : Opened cs r.trace) : Opened cs (sendAddress B self a r).trace := by
  unfold Opened at *
  rw [outs_sendAddress, txBytes_sendAddress, h]
  simp

theorem opened_write_loop (B : Board σ) (self : Adafruit_FRAM_SPI) (cs : Int)
    (values : List Nat) (k i : Nat) (r : Run σ) (h : Opened cs r.trace) :
    Opened cs (write_loop B self values k i r).trace := by
  induction k generalizing i r with
  | zero => exact h
  | succ k ih => exact ih _ _ (opened_SPItransfer B self cs _ r h)

theorem bracketed_close (B : Board σ) (cs : Int) (r : Run σ) (h : Opened cs r.trace) :
    Bracketed cs (digitalWrite B cs HIGH r).trace := by
  unfold Opened at h
  unfold Bracketed
  rw [outs_digitalWrite, txBytes_digitalWrite, h]

/-! ### Address bytes -/

/-- The bytes handed to `SPItransfer` for a width in `{1,2,3}` are the `w` low bytes of
the 16-bit `addr`, most significant first. -/
theorem sentAddress_eq_addressBytes (w a : Nat) (hw : 1 ≤ w ∧ w ≤ 3) :
    sentAddress w a = addressBytes w a := by
  have h0 : a &&& 255 = a % 256 := Nat.and_pow_two_sub_one_eq_mod a 8
  have h1 : (a >>> 8) &&& 255 = a / 256 % 256 := by
    rw [Nat.shiftRight_eq_div_pow]; exact Nat.and_pow_two_sub_one_eq_mod _ 8
  have h2 : (a >>> 16) &&& 255 = a / 65536 % 256 := by
    rw [Nat.shiftRight_eq_div_pow]; exact Nat.and_pow_two_sub_one_eq_mod _ 8
  obtain ⟨hl, hu⟩ := hw
  interval_cases w <;>
    simp [sentAddress, addressBytes, List.range_succ, h0, h1, h2]

/-- The third address byte of a 16-bit address is zero. -/
theorem addressBytes_three (a : Nat) (ha : a < 65536) :
    addressBytes 3 a = [0, a / 256 % 256, a % 256] := by
  have : a / 65536 = 0 := Nat.div_eq_of_lt ha
  simp [addressBytes, List.range_succ, this]

theorem addressBytes_length (w a : Nat) : (addressBytes w a).length = w := by
  simp [addressBytes]

/-! ### Values returned by `SPItransfer` -/

theorem SPItransfer_loop_lt (B : Board σ) (self : Adafruit_FRAM_SPI) (x n reply : Nat)
    (w : σ) (log : List Wire) (h : reply < 256) :
    (SPItransfer_loop B self x n reply w log).1 < 256 := by
  induction n generalizing reply w log with
  | zero => exact h
  | succ i ih =>
    simp only [SPItransfer_loop]
    apply ih
    have hm : (reply <<< 1) % 256 < 2 ^ 8 := Nat.mod_lt _ (by norm_num)
    split
    · exact Nat.or_lt_two_pow hm (by norm_num)
    · exact hm

/-- The value returned by `SPItransfer` is a byte. -/
theorem SPItransfer_lt (B : Board σ) (self : Adafruit_FRAM_SPI) (x : Nat) (r : Run σ) :
    (SPItransfer B self x r).1 < 256 := by
  unfold SPItransfer
  by_cases hc : self._clk = -1
  · simp only [hc, if_true]; exact Nat.mod_lt _ (by norm_num)
  · simp only [hc, if_false]; exact SPItransfer_loop_lt B self _ 8 0 _ _ (by norm_num)

/-- For bytes, the sum `(hi << 8) + lo` of `getDeviceID` is `(hi << 8) | lo` and fits in
16 bits. -/
theorem shift_add_eq_or (hi lo : Nat) (hhi : hi < 256) (hlo : lo < 256) :
    ((hi <<< 8) + lo) % 65536 = (hi <<< 8) ||| lo := by
  have h1 : (hi <<< 8) + lo = (hi <<< 8) ||| lo := by
    rw [Nat.shiftLeft_eq, Nat.mul_comm]
    exact Nat.mul_add_lt_is_or (show lo < 2 ^ 8 from hlo) hi
  rw [← h1, Nat.shiftLeft_eq]
  exact Nat.mod_eq_of_lt (by omega)

/-! ### Bits of a byte -/

theorem and_bit_ne_zero (X m : Nat) : (X &&& (1 <<< m) ≠ 0) ↔ X / 2 ^ m % 2 = 1 := by
  rw [Nat.one_shiftLeft, Nat.and_two_pow, Nat.testBit_to_div_mod]
  by_cases h : X / 2 ^ m % 2 = 1 <;> simp [h]

theorem or_one_of_even (e : Nat) (h : e % 2 = 0) : e ||| 1 = e + 1 := by
  have h2 := Nat.mul_add_lt_is_or (show 1 < 2 ^ 1 by norm_num) (e / 2)
  have : 2 ^ 1 * (e / 2) = e := by omega
  rw [this] at h2
  exact h2.symm

theorem reply_step (R m : Nat) (hm : m < 8) :
    (if ((R >>> m) &&& 1) ≠ 0 then ((R % 256 / 2 ^ (m + 1)) <<< 1) % 256 ||| 1
      else ((R % 256 / 2 ^ (m + 1)) <<< 1) % 256) = R % 256 / 2 ^ m := by
  have he : (((R % 256 / 2 ^ (m + 1)) <<< 1) % 256) % 2 = 0 := by
    rw [Nat.shiftLeft_eq]; omega
  rw [or_one_of_even _ he, Nat.and_one_is_mod, Nat.shiftRight_eq_div_pow, Nat.shiftLeft_eq]
  interval_cases m <;> simp <;> split <;> omega

theorem shift_step (X sh m : Nat) (hX : X < 256) (hm : m < 8)
    (h : sh % 2 ^ (7 - m) = X / 2 ^ (m + 1)) :
    ((sh * 2 + (if (X &&& (1 <<< m)) ≠ 0 then 1 else 0)) % 256) % 2 ^ (8 - m) = X / 2 ^ m := by
  have hb := and_bit_ne_zero X m
  by_cases hx : X / 2 ^ m % 2 = 1
  · rw [if_pos (hb.mpr hx)]
    interval_cases m <;> simp at h hx ⊢ <;> omega
  · rw [if_neg (fun hh => hx (hb.mp hh))]
    interval_cases m <;> simp at h hx ⊢ <;> omega

/-! ### The reference chip under the software exchange -/

/-- One iteration of the software loop seen from the chip: clock low, data, clock high. -/
theorem chip_bit_step (ops : Opcodes) (w : Nat) (cs clk mosi : Int) (h1 : clk ≠ cs)
    (h2 : mosi ≠ cs) (h3 : mosi ≠ clk) (v : Nat) (s : Wired) (f : List Nat)
    (hf : s.chip.frame = some f) :
    Wired.onWrite ops w cs clk mosi clk HIGH
      (Wired.onWrite ops w cs clk mosi mosi v (Wired.onWrite ops w cs clk mosi clk LOW s))
    = { chip := if (s.nbits + 1) % 8 = 0
                then s.chip.absorb ((s.shiftIn * 2 + (if v ≠ 0 then 1 else 0)) % 256)
                else s.chip,
        clk := HIGH, mosi := v, nbits := s.nbits + 1,
        shiftIn := (s.shiftIn * 2 + (if v ≠ 0 then 1 else 0)) % 256,
        out := if s.nbits % 8 = 0 then s.chip.reply ops w else s.out } := by
  by_cases hb : s.nbits % 8 = 0 <;> by_cases hb1 : (s.nbits + 1) % 8 = 0 <;>
    simp [Wired.onWrite, h1, h2, h3, hf, LOW, HIGH, hb, hb1]

/-- One iteration of the software loop against the reference chip, unfolded. -/
theorem chip_loop_unfold (ops : Opcodes) (w : Nat) (self : Adafruit_FRAM_SPI) (X i acc : Nat)
    (s : Wired) (log : List Wire) :
    SPItransfer_loop (chipBoard ops w self) self X (i + 1) acc s log
      = SPItransfer_loop (chipBoard ops w self) self X i
          (if Wired.onRead (Wired.onWrite ops w self._cs self._clk self._mosi self._clk HIGH
                (Wired.onWrite ops w self._cs self._clk self._mosi self._mosi (X &&& (1 <<< i))
                  (Wired.onWrite ops w self._cs self._clk self._mosi self._clk LOW s))) ≠ 0
            then (acc <<< 1) % 256 ||| 1 else (acc <<< 1) % 256)
          (Wired.onWrite ops w self._cs self._clk self._mosi self._clk HIGH
            (Wired.onWrite ops w self._cs self._clk self._mosi self._mosi (X &&& (1 <<< i))
              (Wired.onWrite ops w self._cs self._clk self._mosi self._clk LOW s)))
          (log ++ [Wire.digitalWrite self._clk LOW,
                   Wire.digitalWrite self._mosi (X &&& (1 <<< i)),
                   Wire.digitalWrite self._clk HIGH,
                   Wire.digitalRead self._miso
                    (Wired.onRead (Wired.onWrite ops w self._cs self._clk self._mosi self._clk HIGH
                      (Wired.onWrite ops w self._cs self._clk self._mosi self._mosi
                        (X &&& (1 <<< i))
                        (Wired.onWrite ops w self._cs self._clk self._mosi self._clk LOW s))))]) := by
  rw [SPItransfer_loop]
  simp [chipBoard]

/-- The software loop against the reference chip, with `n + 1` iterations left: the
value returned is the byte the chip shifts out, and the chip has clocked in `X`. -/
theorem chip_loop (ops : Opcodes) (w : Nat) (self : Adafruit_FRAM_SPI)
    (h1 : self._clk ≠ self._cs) (h2 : self._mosi ≠ self._cs) (h3 : self._mosi ≠ self._clk)
    (X : Nat) (hX : X < 256) (c0 : Chip) (f : List Nat) (hf : c0.frame = some f)
    (n : Nat) (hn : n < 8) (acc : Nat) (s : Wired) (log : List Wire)
    (hc : s.chip = c0) (hb : s.nbits % 8 = 7 - n) (ho : n < 7 → s.out = c0.reply ops w)
    (ha : acc = c0.reply ops w % 256 / 2 ^ (n + 1))
    (hs : s.shiftIn % 2 ^ (7 - n) = X / 2 ^ (n + 1)) :
    (SPItransfer_loop (chipBoard ops w self) self X (n + 1) acc s log).1
      = c0.reply ops w % 256 ∧
    (SPItransfer_loop (chipBoard ops w self) self X (n + 1) acc s log).2.1.chip
      = c0.absorb X ∧
    (SPItransfer_loop (chipBoard ops w self) self X (n + 1) acc s log).2.1.nbits % 8 = 0 := by
  induction n generalizing acc s log with
  | zero =>
    have hf' : s.chip.frame = some f := hc ▸ hf
    have hout : (if s.nbits % 8 = 0 then c0.reply ops w else s.out) = c0.reply ops w := by
      rw [if_neg (by omega)]; exact ho (by omega)
    have hsh := shift_step X s.shiftIn 0 hX (by omega) hs
    have hrep := reply_step (c0.reply ops w) 0 (by omega)
    have h78 : (s.nbits + 1 + 7) % 8 = 7 := by omega
    have h18 : (s.nbits + 1) % 8 = 0 := by omega
    have h256 : (2 : Nat) ^ 8 = 256 := by norm_num
    simp only [Nat.sub_zero, Nat.pow_zero, Nat.div_one] at hsh hrep
    rw [h256, Nat.mod_mod] at hsh
    rw [chip_loop_unfold, chip_bit_step ops w _ _ _ h1 h2 h3 _ s f hf']
    simp only [SPItransfer_loop, Wired.onRead, hout, h78, h18, if_true, Nat.sub_self, ha,
      hsh, hc]
    exact ⟨hrep, trivial, trivial⟩
  | succ k ih =>
    have hf' : s.chip.frame = some f := hc ▸ hf
    have hout : (if s.nbits % 8 = 0 then s.chip.reply ops w else s.out) = c0.reply ops w := by
      by_cases h0 : s.nbits % 8 = 0
      · rw [if_pos h0, hc]
      · rw [if_neg h0]; exact ho (by omega)
    have hsh := shift_step X s.shiftIn (k + 1) hX hn hs
    have hrep := reply_step (c0.reply ops w) (k + 1) hn
    have h78 : (s.nbits + 1 + 7) % 8 = 7 - (k + 1) := by omega
    have h18 : ¬ (s.nbits + 1) % 8 = 0 := by omega
    have hsub : 7 - (7 - (k + 1)) = k + 1 := by omega
    rw [chip_loop_unfold, chip_bit_step ops w _ _ _ h1 h2 h3 _ s f hf']
    simp only [Wired.onRead, hout, h78, h18, if_false, hsub, ha]
    rw [hrep]
    refine ih (by omega) _ _ _ ?_ ?_ ?_ ?_ ?_
    · exact hc
    · show (s.nbits + 1) % 8 = 7 - k
      omega
    · intro _; rfl
    · rfl
    · rw [show 7 - k = 8 - (k + 1) by omega]; exact hsh

/-! ### The operations against the reference chip -/

theorem inFrame_select (ops : Opcodes) (w : Nat) (self : Adafruit_FRAM_SPI) (r : Run Wired)
    (mem : Nat → Nat) (wel : Bool) (h : Idle r.world mem wel) :
    InFrame (digitalWrite (chipBoard ops w self) self._cs LOW r).world mem wel [] := by
  unfold Idle at h
  simp [InFrame, digitalWrite, chipBoard, Wired.onWrite, LOW, h, Chip.select]

theorem idle_deselect (ops : Opcodes) (w : Nat) (self : Adafruit_FRAM_SPI) (r : Run Wired)
    (mem : Nat → Nat) (wel : Bool) (f : List Nat) (h : InFrame r.world mem wel f) :
    (digitalWrite (chipBoard ops w self) self._cs HIGH r).world.chip
      = Chip.deselect ops w { mem := mem, wel := wel, frame := some f } := by
  simp [digitalWrite, chipBoard, Wired.onWrite, HIGH, h.1]

/-- One byte exchange with the selected chip: the driver receives the byte the chip
shifts out, the chip the byte the driver sends. -/
theorem inFrame_SPItransfer (ops : Opcodes) (w : Nat) (self : Adafruit_FRAM_SPI)
    (hp : Wiring self) (x : Nat) (r : Run Wired) (mem : Nat → Nat) (wel : Bool)
    (f : List Nat) (h : InFrame r.world mem wel f) :
    (SPItransfer (chipBoard ops w self) self x r).1
      = Chip.reply ops w { mem := mem, wel := wel, frame := some f } % 256 ∧
    InFrame (SPItransfer (chipBoard ops w self) self x r).2.world mem wel (f ++ [x % 256]) := by
  obtain ⟨hc, hb⟩ := h
  by_cases hclk : self._clk = -1
  · simp [SPItransfer, hclk, chipBoard, hc, InFrame, Chip.absorb, hb]
  · rcases hp with hp | ⟨h1, h2, h3⟩
    · exact absurd hp hclk
    · have hf : r.world.chip.frame = some f := by rw [hc]
      have key := chip_loop ops w self h1 h2 h3 (x % 256) (Nat.mod_lt _ (by norm_num))
        r.world.chip f hf 7 (by norm_num) 0 r.world [] rfl (by omega) (by omega)
        (by
          have := Nat.mod_lt (Chip.reply ops w r.world.chip) (show 256 > 0 by norm_num)
          simp)
        (by
          have := Nat.mod_lt x (show 256 > 0 by norm_num)
          simp; omega)
      simp only [SPItransfer, hclk, if_false]
      refine ⟨?_, ?_, key.2.2⟩
      · rw [key.1, hc]
      · rw [key.2.1, hc]; rfl

theorem inFrame_sendAddress (ops : Opcodes) (w : Nat) (self : Adafruit_FRAM_SPI)
    (hp : Wiring self) (a : Nat) (r : Run Wired) (mem : Nat → Nat) (wel : Bool)
    (f : List Nat) (h : InFrame r.world mem wel f) :
    InFrame (sendAddress (chipBoard ops w self) self a r).world mem wel
      (f ++ sentAddress self._addressLengthInBytes a) := by
  unfold sendAddress sentAddress
  by_cases h2 : self._addressLengthInBytes > 2 <;>
  by_cases h1 : self._addressLengthInBytes > 1
  · have s1 := (inFrame_SPItransfer ops w self hp (((a >>> 16) &&& 0xFF) % 256) r _ _ _ h).2
    have s2 := (inFrame_SPItransfer ops w self hp (((a >>> 8) &&& 0xFF) % 256) _ _ _ _ s1).2
    have s3 := (inFrame_SPItransfer ops w self hp ((a &&& 0xFF) % 256) _ _ _ _ s2).2
    simpa [h1, h2] using s3
  · omega
  · have s2 := (inFrame_SPItransfer ops w self hp (((a >>> 8) &&& 0xFF) % 256) r _ _ _ h).2
    have s3 := (inFrame_SPItransfer ops w self hp ((a &&& 0xFF) % 256) _ _ _ _ s2).2
    simpa [h1, h2] using s3
  · have s3 := (inFrame_SPItransfer ops w self hp ((a &&& 0xFF) % 256) r _ _ _ h).2
    simpa [h1, h2] using s3

theorem inFrame_write_loop (ops : Opcodes) (w : Nat) (self : Adafruit_FRAM_SPI)
    (hp : Wiring self) (values : List Nat) (k i : Nat) (r : Run Wired) (mem : Nat → Nat)
    (wel : Bool) (f : List Nat) (h : InFrame r.world mem wel f)
    (hk : i + k ≤ values.length) :
    InFrame (write_loop (chipBoard ops w self) self values k i r).world mem wel
      (f ++ ((values.drop i).take k).map (fun b => b % 256)) := by
  induction k generalizing i r f with
  | zero => simpa [write_loop] using h
  | succ k ih =>
    have hi : i < values.length := by omega
    have s1 := (inFrame_SPItransfer ops w self hp (values.getD i 0) r _ _ _ h).2
    have s2 := ih (i + 1) _ _ s1 (by omega)
    simp only [write_loop]
    rw [List.drop_eq_getElem_cons hi, List.take_succ_cons, List.map_cons,
      List.getD_eq_getElem _ _ hi]
    rw [List.getD_eq_getElem _ _ hi, List.append_assoc, List.singleton_append] at s2
    exact s2

/-! ### The memory of the reference chip -/

theorem store_other (size : Nat) (data : List Nat) (mem : Nat → Nat) (p a : Nat)
    (h : ∀ j, j < data.length → a ≠ (p + j) % size) :
    Chip.store size mem p data a = mem a := by
  induction data generalizing mem p with
  | nil => rfl
  | cons d ds ih =>
    simp only [Chip.store]
    rw [ih]
    · have := h 0 (by simp)
      simp only [Nat.add_zero] at this
      simp [this]
    · intro j hj
      have := h (j + 1) (by simp; omega)
      rwa [Nat.mod_add_mod, Nat.add_assoc, Nat.add_comm 1 j]

/-- Reading back a stored block: byte `i` sits `i` cells after the start, as long as
the block is no longer than the address space. -/
theorem store_get (size : Nat) (data : List Nat) (mem : Nat → Nat) (p i : Nat)
    (hn : data.length ≤ size) (hi : i < data.length) :
    Chip.store size mem p data ((p + i) % size) = data.getD i 0 := by
  induction data generalizing mem p i with
  | nil => simp at hi
  | cons d ds ih =>
    simp only [Chip.store]
    cases i with
    | zero =>
      rw [store_other]
      · simp
      · intro j hj heq
        simp only [Nat.add_zero, Nat.mod_add_mod] at heq
        have hlen : j + 1 < size := by simp at hn; omega
        have hm : (p + 0) % size = (p + (1 + j)) % size := by
          rw [Nat.add_zero, heq, Nat.add_assoc]
        have := Nat.ModEq.add_left_cancel' p hm
        rw [Nat.ModEq, Nat.zero_mod, Nat.mod_eq_of_lt (by omega)] at this
        omega
    | succ i =>
      have := ih (fun a => if a = p % size then d else mem a) ((p + 1) % size) i
        (by simp at hn; omega) (by simpa using hi)
      rw [Nat.mod_add_mod] at this
      rw [show p + (i + 1) = p + 1 + i by omega, this]
      simp

/-- The address the chip decodes from the address bytes of a width in `{1,2,3}`. -/
theorem addrOf_sentAddress (w a : Nat) (hw : 1 ≤ w ∧ w ≤ 3) (ha : a < 65536) :
    Chip.addrOf (sentAddress w a) = a % 256 ^ w := by
  rw [sentAddress_eq_addressBytes w a hw]
  obtain ⟨hl, hu⟩ := hw
  interval_cases w <;> simp [addressBytes, List.range_succ, Chip.addrOf] <;> omega

theorem sentAddress_length (w a : Nat) (hw : 1 ≤ w ∧ w ≤ 3) :
    (sentAddress w a).length = w := by
  rw [sentAddress_eq_addressBytes w a hw, addressBytes_length]

/-- The effect of `write` on the reference chip: the block is stored from the address
the chip decodes, and the chip is deselected again. -/
theorem write_chip (ops : Opcodes) (self : Adafruit_FRAM_SPI) (hp : Wiring self)
    (hw : 1 ≤ self._addressLengthInBytes ∧ self._addressLengthInBytes ≤ 3)
    (A : Nat) (values : List Nat) (count : Nat) (hc : count ≤ values.length)
    (r : Run Wired) (mem : Nat → Nat) (h : Idle r.world mem true) :
    Idle (write ops (chipBoard ops self._addressLengthInBytes self) self A values count
        r).world
      (Chip.store (256 ^ self._addressLengthInBytes) mem
        (A % 65536 % 256 ^ self._addressLengthInBytes)
        ((values.take count).map (fun b => b % 256))) true := by
  have s0 := inFrame_select ops self._addressLengthInBytes self r mem true h
  have s1 := (inFrame_SPItransfer ops self._addressLengthInBytes self hp ops.OPCODE_WRITE _ _ _ _ s0).2
  have s2 := inFrame_sendAddress ops self._addressLengthInBytes self hp (A % 65536) _ _ _ _ s1
  have s3 := inFrame_write_loop ops self._addressLengthInBytes self hp values count 0 _ _ _ _ s2 (by omega)
  have s4 := idle_deselect ops self._addressLengthInBytes self _ _ _ _ s3
  have hl := sentAddress_length self._addressLengthInBytes (A % 65536) hw
  have ha := addrOf_sentAddress self._addressLengthInBytes (A % 65536) hw
    (Nat.mod_lt _ (by norm_num))
  unfold Idle
  rw [write_eq]
  rw [s4]
  simp only [List.nil_append, List.singleton_append, List.cons_append, Chip.deselect,
    List.drop_zero, List.length_append, hl, List.take_left' hl, List.drop_left' hl, ha]
  simp

/-- The effect of `write8` on the reference chip. -/
theorem write8_chip (ops : Opcodes) (self : Adafruit_FRAM_SPI) (hp : Wiring self)
    (hw : 1 ≤ self._addressLengthInBytes ∧ self._addressLengthInBytes ≤ 3)
    (A v : Nat) (r : Run Wired) (mem : Nat → Nat) (h : Idle r.world mem true) :
    Idle (write8 ops (chipBoard ops self._addressLengthInBytes self) self A v r).world
      (Chip.store (256 ^ self._addressLengthInBytes) mem
        (A % 65536 % 256 ^ self._addressLengthInBytes) [v % 256]) true := by
  have s0 := inFrame_select ops self._addressLengthInBytes self r mem true h
  have s1 := (inFrame_SPItransfer ops self._addressLengthInBytes self hp ops.OPCODE_WRITE _ _ _ _ s0).2
  have s2 := inFrame_sendAddress ops self._addressLengthInBytes self hp (A % 65536) _ _ _ _ s1
  have s3 := (inFrame_SPItransfer ops self._addressLengthInBytes self hp (v % 256) _ _ _ _ s2).2
  have s4 := idle_deselect ops self._addressLengthInBytes self _ _ _ _ s3
  have hl := sentAddress_length self._addressLengthInBytes (A % 65536) hw
  have ha := addrOf_sentAddress self._addressLengthInBytes (A % 65536) hw
    (Nat.mod_lt _ (by norm_num))
  unfold Idle
  rw [write8_eq]
  rw [s4]
  simp only [List.nil_append, List.singleton_append, List.cons_append, Chip.deselect,
    List.length_append, hl, List.take_left' hl, List.drop_left' hl, ha]
  simp

/-- The value `read8` gets from the reference chip: the cell at the address the chip
decodes. -/
theorem read8_chip (ops : Opcodes) (self : Adafruit_FRAM_SPI) (hp : Wiring self)
    (hw : 1 ≤ self._addressLengthInBytes ∧ self._addressLengthInBytes ≤ 3)
    (A : Nat) (r : Run Wired) (mem : Nat → Nat) (wel : Bool) (h : Idle r.world mem wel) :
    (read8 ops (chipBoard ops self._addressLengthInBytes self) self A r).1
      = mem (A % 65536 % 256 ^ self._addressLengthInBytes) % 256 := by
  have s0 := inFrame_select ops self._addressLengthInBytes self r mem wel h
  have s1 := (inFrame_SPItransfer ops self._addressLengthInBytes self hp ops.OPCODE_READ _ _ _ _ s0).2
  have s2 := inFrame_sendAddress ops self._addressLengthInBytes self hp (A % 65536) _ _ _ _ s1
  have s3 := (inFrame_SPItransfer ops self._addressLengthInBytes self hp 0 _ _ _ _ s2).1
  have hl := sentAddress_length self._addressLengthInBytes (A % 65536) hw
  have ha := addrOf_sentAddress self._addressLengthInBytes (A % 65536) hw
    (Nat.mod_lt _ (by norm_num))
  have ht : List.take self._addressLengthInBytes
      (sentAddress self._addressLengthInBytes (A % 65536))
      = sentAddress self._addressLengthInBytes (A % 65536) :=
    List.take_of_length_le (by rw [hl])
  rw [read8_eq]
  simp only []
  rw [s3]
  simp only [List.nil_append, List.singleton_append, Chip.reply, hl, ht,
    ha, le_refl, and_self, if_true, Nat.sub_self, Nat.add_zero, Nat.mod_mod]

/-! ### Address widths outside `{1,2,3}` -/

/-- Only the two comparisons `> 2` and `> 1` of the width are used: any width sends the
address bytes of the width clamped into `{1,2,3}`. -/
theorem sentAddress_clamp (n a : Nat) : sentAddress n a = sentAddress (min (max n 1) 3) a := by
  unfold sentAddress
  by_cases h2 : n > 2
  · have e : min (max n 1) 3 = 3 := by omega
    simp [h2, e, show n > 1 by omega]
  · by_cases h1 : n > 1
    · have e : min (max n 1) 3 = 2 := by omega
      simp [h2, h1, e]
    · have e : min (max n 1) 3 = 1 := by omega
      simp [h2, h1, e]

theorem sentAddress_eq_addressBytes_clamp (n a : Nat) :
    sentAddress n a = addressBytes (min (max n 1) 3) a := by
  rw [sentAddress_clamp, sentAddress_eq_addressBytes _ _ (by omega)]

/-! ### The software exchange, bit by bit -/

/-- The loop of the software exchange on any board: its calls are the bit steps of
`bitBang` for some sampled levels, and `reply` is shifted and or-ed once per level. -/
theorem SPItransfer_loop_bitBang (B : Board σ) (self : Adafruit_FRAM_SPI) (x n acc : Nat)
    (w : σ) (log : List Wire) :
    ∃ bs : List Nat, bs.length = n ∧
      (SPItransfer_loop B self x n acc w log).2.2
        = log ++ bitBang self._clk self._mosi self._miso x n bs ∧
      (SPItransfer_loop B self x n acc w log).1
        = bs.foldl (fun a b => if b ≠ 0 then (a <<< 1) % 256 ||| 1 else (a <<< 1) % 256) acc := by
  induction n generalizing acc w log with
  | zero => exact ⟨[], rfl, by simp [SPItransfer_loop, bitBang], rfl⟩
  | succ i ih =>
    rw [SPItransfer_loop]
    simp only []
    obtain ⟨bs, hl, hlog, hacc⟩ := ih
      (if (B.digitalRead self._miso (B.digitalWrite self._clk HIGH
            (B.digitalWrite self._mosi (x &&& (1 <<< i))
              (B.digitalWrite self._clk LOW w)))).1 ≠ 0
        then (acc <<< 1) % 256 ||| 1 else (acc <<< 1) % 256)
      (B.digitalRead self._miso (B.digitalWrite self._clk HIGH
            (B.digitalWrite self._mosi (x &&& (1 <<< i))
              (B.digitalWrite self._clk LOW w)))).2
      (log ++ [Wire.digitalWrite self._clk LOW,
               Wire.digitalWrite self._mosi (x &&& (1 <<< i)),
               Wire.digitalWrite self._clk HIGH,
               Wire.digitalRead self._miso (B.digitalRead self._miso
                 (B.digitalWrite self._clk HIGH
                   (B.digitalWrite self._mosi (x &&& (1 <<< i))
                     (B.digitalWrite self._clk LOW w)))).1])
    refine ⟨(B.digitalRead self._miso (B.digitalWrite self._clk HIGH
            (B.digitalWrite self._mosi (x &&& (1 <<< i))
              (B.digitalWrite self._clk LOW w)))).1 :: bs, by simp [hl], ?_, ?_⟩
    · rw [hlog]; simp [bitBang]
    · rw [hacc]; rfl

/-- While the byte cannot overflow, shifting and or-ing is doubling and adding. -/
theorem foldl_shift_or (bs : List Nat) (acc : Nat) (h : (acc + 1) * 2 ^ bs.length ≤ 256) :
    bs.foldl (fun a b => if b ≠ 0 then (a <<< 1) % 256 ||| 1 else (a <<< 1) % 256) acc
      = bs.foldl (fun a b => 2 * a + (if b ≠ 0 then 1 else 0)) acc := by
  induction bs generalizing acc with
  | nil => rfl
  | cons b bs ih =>
    simp only [List.length_cons, pow_succ] at h
    have hp : 0 < 2 ^ bs.length := Nat.pow_pos (by norm_num)
    have h2 : acc * 2 < 256 := by nlinarith
    have hs : (acc <<< 1) % 256 = 2 * acc := by
      rw [Nat.shiftLeft_eq, pow_one, Nat.mod_eq_of_lt h2]; omega
    simp only [List.foldl_cons, hs]
    have hor : 2 * acc ||| 1 = 2 * acc + 1 := or_one_of_even _ (by omega)
    by_cases hb : b ≠ 0
    · rw [if_pos hb, if_pos hb, hor]
      exact ih _ (by nlinarith)
    · rw [if_neg hb, if_neg hb]
      exact ih _ (by nlinarith)

/-- One software exchange on any board: one exchange event made of the eight bit steps,
returning the byte assembled from the eight sampled levels. -/
theorem SPItransfer_software (B : Board σ) (self : Adafruit_FRAM_SPI) (x : Nat) (r : Run σ)
    (hsw : self._clk ≠ -1) :
    ∃ bs : List Nat, bs.length = 8 ∧
      (SPItransfer B self x r).1 = assemble bs ∧
      (SPItransfer B self x r).2.trace
        = r.trace ++ [Event.exchange (x % 256) (assemble bs)
            (bitBang self._clk self._mosi self._miso (x % 256) 8 bs)] := by
  obtain ⟨bs, hl, hlog, hacc⟩ := SPItransfer_loop_bitBang B self (x % 256) 8 0 r.world []
  rw [foldl_shift_or bs 0 (by rw [hl]; norm_num)] at hacc
  refine ⟨bs, hl, ?_, ?_⟩
  · simp only [SPItransfer, hsw, if_false]; exact hacc
  · simp only [SPItransfer, hsw, if_false]
    rw [hacc, hlog]; rfl

/-- One hardware exchange on any board. -/
theorem SPItransfer_hardware (B : Board σ) (self : Adafruit_FRAM_SPI) (x : Nat) (r : Run σ)
    (hhw : self._clk = -1) :
    (SPItransfer B self x r).1 = (B.spiTransfer (x % 256) r.world).1 % 256 ∧
    (SPItransfer B self x r).2.trace
      = r.trace ++ [Event.exchange (x % 256) ((B.spiTransfer (x % 256) r.world).1 % 256)
          [Wire.spiTransfer (x % 256) (B.spiTransfer (x % 256) r.world).1]] := by
  simp [SPItransfer, hhw]

/-- The bit steps only name the clock, data-out and data-in pins. -/
theorem bitBang_pin (clk mosi miso : Int) (x n : Nat) (bs : List Nat) :
    ∀ e ∈ bitBang clk mosi miso x n bs,
      e.pin = some clk ∨ e.pin = some mosi ∨ e.pin = some miso := by
  induction n generalizing bs with
  | zero => intro e he; simp [bitBang] at he
  | succ i ih =>
    cases bs with
    | nil => intro e he; simp [bitBang] at he
    | cons b bs =>
      intro e he
      simp only [bitBang, List.mem_append, List.mem_cons, List.mem_singleton,
        List.not_mem_nil, or_false] at he
      rcases he with (h | h | h | h) | h
      · subst h; exact Or.inl rfl
      · subst h; exact Or.inr (Or.inl rfl)
      · subst h; exact Or.inl rfl
      · subst h; exact Or.inr (Or.inr rfl)
      · exact ih bs e h

/-- The level written to data-out for bit `i` is high exactly when bit `i` is set. -/
theorem and_bit_testBit (X i : Nat) : (X &&& (1 <<< i) ≠ 0) ↔ X.testBit i = true := by
  rw [and_bit_ne_zero, Nat.testBit_to_div_mod]
  simp

/-- The loop of the software exchange on the scripted board: the sampled levels are the
next entries of the script. -/
theorem SPItransfer_loop_script (self : Adafruit_FRAM_SPI) (x n acc : Nat)
    (script : List Nat) (log : List Wire) (h : n ≤ script.length) :
    SPItransfer_loop scriptBoard self x n acc script log
      = ((script.take n).foldl
            (fun a b => if b ≠ 0 then (a <<< 1) % 256 ||| 1 else (a <<< 1) % 256) acc,
         script.drop n,
         log ++ bitBang self._clk self._mosi self._miso x n (script.take n)) := by
  induction n generalizing acc script log with
  | zero => simp [SPItransfer_loop, bitBang]
  | succ i ih =>
    cases script with
    | nil => simp at h
    | cons b rest =>
      rw [SPItransfer_loop]
      simp only [scriptBoard, List.headD_cons, List.tail_cons]
      have := ih (if b ≠ 0 then (acc <<< 1) % 256 ||| 1 else (acc <<< 1) % 256) rest
        (log ++ [Wire.digitalWrite self._clk LOW,
                 Wire.digitalWrite self._mosi (x &&& (1 <<< i)),
                 Wire.digitalWrite self._clk HIGH, Wire.digitalRead self._miso b])
        (by simpa using h)
      simp only [scriptBoard] at this
      rw [this]
      simp [bitBang]

theorem decide_and_bit (X i : Nat) : decide (X &&& (1 <<< i) ≠ 0) = X.testBit i := by
  by_cases h : X.testBit i = true
  · rw [h]; exact decide_eq_true ((and_bit_testBit X i).mpr h)
  · have h' : X.testBit i = false := by simpa using h
    rw [h']; exact decide_eq_false (fun hc => h ((and_bit_testBit X i).mp hc))

/-- The levels presented on data-out by the bit steps are the bits of `X`, most
significant first. -/
theorem presented_bitBang (clk mosi miso : Int) (hm : mosi ≠ clk) (X n : Nat)
    (bs : List Nat) (hl : bs.length = n) :
    presented mosi (bitBang clk mosi miso X n bs)
      = (List.range n).reverse.map (fun i => X.testBit i) := by
  induction n generalizing bs with
  | zero => simp [bitBang, presented]
  | succ i ih =>
    cases bs with
    | nil => simp at hl
    | cons b bs =>
      have hl' : bs.length = i := by simpa using hl
      have e : bitBang clk mosi miso X (i + 1) (b :: bs)
          = Wire.digitalWrite clk LOW :: Wire.digitalWrite mosi (X &&& (1 <<< i))
            :: Wire.digitalWrite clk HIGH :: Wire.digitalRead miso b
            :: bitBang clk mosi miso X i bs := rfl
      rw [e]
      simp only [presented, hm.symm, if_false, if_true, ih bs hl', decide_and_bit,
        List.range_succ, List.reverse_append, List.reverse_cons, List.reverse_nil,
        List.map_cons, List.map_append, List.nil_append, List.singleton_append]

/-- One step of the reply byte when the sampled level is the level just written for
bit `i` of `X`. -/
theorem reply_step_loopback (X i : Nat) (hX : X < 256) (hi : i < 8) :
    (if (if X &&& (1 <<< i) ≠ 0 then HIGH else LOW) ≠ 0
      then ((X / 2 ^ (i + 1)) <<< 1) % 256 ||| 1 else ((X / 2 ^ (i + 1)) <<< 1) % 256)
      = X / 2 ^ i := by
  have h := reply_step X i hi
  rw [Nat.mod_eq_of_lt hX] at h
  have hc : ((X >>> i) &&& 1 ≠ 0) ↔ (X &&& (1 <<< i) ≠ 0) := by
    rw [and_bit_ne_zero, Nat.and_one_is_mod, Nat.shiftRight_eq_div_pow]; omega
  by_cases hb : X &&& (1 <<< i) ≠ 0
  · rw [if_pos (hc.mpr hb)] at h
    rw [if_pos hb, if_pos (by simp [HIGH])]; exact h
  · rw [if_neg (fun hh => hb (hc.mp hh))] at h
    rw [if_neg hb, if_neg (by simp [LOW])]; exact h

/-- The loop of the software exchange with data-out wired back to data-in returns the
byte sent. -/
theorem SPItransfer_loop_loopback (self : Adafruit_FRAM_SPI) (X : Nat) (hX : X < 256)
    (hm : self._mosi ≠ self._clk) (n : Nat) (hn : n ≤ 8) (acc s : Nat) (log : List Wire)
    (ha : acc = X / 2 ^ n) :
    (SPItransfer_loop (loopbackBoard self._mosi self._miso) self X n acc s log).1 = X := by
  induction n generalizing acc s log with
  | zero => simpa [SPItransfer_loop] using ha
  | succ i ih =>
    rw [SPItransfer_loop]
    simp only [loopbackBoard, hm.symm, if_false, if_true]
    apply ih (by omega)
    rw [ha]
    exact reply_step_loopback X i hX (by omega)

/-- The byte assembled from eight bits. -/
theorem assemble_bits (b7 b6 b5 b4 b3 b2 b1 b0 : Bool) :
    assemble [b7.toNat, b6.toNat, b5.toNat, b4.toNat, b3.toNat, b2.toNat, b1.toNat, b0.toNat]
      = b7.toNat * 128 + b6.toNat * 64 + b5.toNat * 32 + b4.toNat * 16 + b3.toNat * 8
        + b2.toNat * 4 + b1.toNat * 2 + b0.toNat := by
  cases b7 <;> cases b6 <;> cases b5 <;> cases b4 <;> cases b3 <;> cases b2 <;>
    cases b1 <;> cases b0 <;> rfl

/-! ### What the operations read from the object -/

theorem SPItransfer_loop_congr (B : Board σ) (a b : Adafruit_FRAM_SPI) (x : Nat)
    (h1 : a._clk = b._clk) (h2 : a._mosi = b._mosi) (h3 : a._miso = b._miso)
    (n acc : Nat) (w : σ) (log : List Wire) :
    SPItransfer_loop B a x n acc w log = SPItransfer_loop B b x n acc w log := by
  induction n generalizing acc w log with
  | zero => rfl
  | succ i ih =>
    rw [SPItransfer_loop, SPItransfer_loop]
    simp only [h1, h2, h3, ih]

/-- `SPItransfer` reads the three software-SPI pins of the object and nothing else. -/
theorem SPItransfer_congr (B : Board σ) (a b : Adafruit_FRAM_SPI)
    (h1 : a._clk = b._clk) (h2 : a._mosi = b._mosi) (h3 : a._miso = b._miso)
    (x : Nat) (r : Run σ) : SPItransfer B a x r = SPItransfer B b x r := by
  simp only [SPItransfer, h1, SPItransfer_loop_congr B a b _ h1 h2 h3]

/-- The argument of `SPItransfer` counts as a byte. -/
theorem SPItransfer_mod (B : Board σ) (self : Adafruit_FRAM_SPI) (x : Nat) (r : Run σ) :
    SPItransfer B self (x % 256) r = SPItransfer B self x r := by
  simp only [SPItransfer, Nat.mod_mod]

theorem sendAddress_congr (B : Board σ) (a b : Adafruit_FRAM_SPI) (h : SameFraming a b)
    (addr : Nat) (r : Run σ) : sendAddress B a addr r = sendAddress B b addr r := by
  obtain ⟨-, h1, h2, h3, h4, h5⟩ := h
  unfold sendAddress
  have hx : ∀ x q, SPItransfer B a x q = SPItransfer B b x q :=
    SPItransfer_congr B a b h1 h2 h3
  by_cases c2 : a._addressLengthInBytes > 2
  · have d2 := h4.mp c2
    by_cases c1 : a._addressLengthInBytes > 1
    · have d1 := h5.mp c1
      simp only [c2, c1, d2, d1, if_true, hx]
    · have d1 := mt h5.mpr c1
      simp only [c2, c1, d2, d1, if_true, if_false, hx]
  · have d2 := mt h4.mpr c2
    by_cases c1 : a._addressLengthInBytes > 1
    · have d1 := h5.mp c1
      simp only [c2, c1, d2, d1, if_true, if_false, hx]
    · have d1 := mt h5.mpr c1
      simp only [c2, c1, d2, d1, if_false, hx]

theorem write_loop_congr (B : Board σ) (a b : Adafruit_FRAM_SPI) (h : SameFraming a b)
    (values : List Nat) (k i : Nat) (r : Run σ) :
    write_loop B a values k i r = write_loop B b values k i r := by
  induction k generalizing i r with
  | zero => rfl
  | succ k ih =>
    simp only [write_loop]
    rw [SPItransfer_congr B a b h.2.1 h.2.2.1 h.2.2.2.1, ih]

/-- The operations that talk to the chip read the four pins and the two comparisons of
the address width, and nothing else of the object. -/
theorem operations_congr (ops : Opcodes) (B : Board σ) (a b : Adafruit_FRAM_SPI)
    (h : SameFraming a b) (r : Run σ) :
    (∀ enable, writeEnable ops B a enable r = writeEnable ops B b enable r) ∧
    (∀ addr value, write8 ops B a addr value r = write8 ops B b addr value r) ∧
    (∀ addr values count, write ops B a addr values count r
      = write ops B b addr values count r) ∧
    (∀ addr, read8 ops B a addr r = read8 ops B b addr r) ∧
    getDeviceID ops B a r = getDeviceID ops B b r ∧
    getStatusRegister ops B a r = getStatusRegister ops B b r ∧
    (∀ value, setStatusRegister ops B a value r = setStatusRegister ops B b value r) := by
  have hx : ∀ x q, SPItransfer B a x q = SPItransfer B b x q :=
    SPItransfer_congr B a b h.2.1 h.2.2.1 h.2.2.2.1
  have hs := sendAddress_congr B a b h
  have hl := write_loop_congr B a b h
  have hcs : a._cs = b._cs := h.1
  refine ⟨?_, ?_, ?_, ?_, ?_, ?_, ?_⟩
  · intro enable; simp only [writeEnable, hx, hcs]
  · intro addr value; simp only [write8_eq, hx, hs, hcs]
  · intro addr values count; simp only [write_eq, hx, hs, hl, hcs]
  · intro addr; simp only [read8_eq, hx, hs, hcs]
  · simp only [getDeviceID, hx, hcs]
  · simp only [getStatusRegister, hx, hcs]
  · intro value; simp only [setStatusRegister, hx, hcs]

/-- The initialisation flag is not among the things the operations read. -/
theorem sameFraming_flag (self : Adafruit_FRAM_SPI) (flag : Bool) :
    SameFraming { self with _framInitialised := flag } self :=
  ⟨rfl, rfl, rfl, rfl, Iff.rfl, Iff.rfl⟩

/-- `begin` too reads only the pins: result and run do not depend on anything else. -/
theorem begin_congr (ops : Opcodes) (B : Board σ) (a b : Adafruit_FRAM_SPI)
    (h : SameFraming a b) (r : Run σ) :
    (begin ops B a r).1 = (begin ops B b r).1 ∧
    (begin ops B a r).2.2 = (begin ops B b r).2.2 := by
  have hg := fun q => (operations_congr ops B a b h q).2.2.2.2.1
  obtain ⟨hcs, h1, h2, h3, -, -⟩ := h
  simp only [begin, hcs, h1, h2, h3, hg, and_self]

/-- The object after `begin`. -/
theorem begin_self (ops : Opcodes) (B : Board σ) (self : Adafruit_FRAM_SPI) (r : Run σ) :
    (begin ops B self r).2.1 = { self with _framInitialised := true } := by
  simp [begin]

theorem trace_digitalWrite (B : Board σ) (pin : Int) (val : Nat) (r : Run σ) :
    (digitalWrite B pin val r).trace = r.trace ++ [Event.call (Wire.digitalWrite pin val)] :=
  rfl

theorem trace_pinMode (B : Board σ) (pin : Int) (mode : Nat) (r : Run σ) :
    (pinMode B pin mode r).trace = r.trace ++ [Event.call (Wire.pinMode pin mode)] :=
  rfl

/-! ### Sequences of calls -/

/-- No call changes a pin assignment. -/
theorem exec_pins (ops : Opcodes) (B : Board σ) (op : Op) (self : Adafruit_FRAM_SPI)
    (r : Run σ) :
    (op.exec ops B self r).2.1._cs = self._cs ∧ (op.exec ops B self r).2.1._clk = self._clk ∧
    (op.exec ops B self r).2.1._mosi = self._mosi ∧
    (op.exec ops B self r).2.1._miso = self._miso := by
  cases op <;> simp [Op.exec, begin_self, setAddressLengthInBytes]

theorem execAll_pins (ops : Opcodes) (B : Board σ) (calls : List Op) (self : Adafruit_FRAM_SPI)
    (r : Run σ) :
    (Op.execAll ops B calls self r).1._cs = self._cs ∧
    (Op.execAll ops B calls self r).1._clk = self._clk ∧
    (Op.execAll ops B calls self r).1._mosi = self._mosi ∧
    (Op.execAll ops B calls self r).1._miso = self._miso := by
  induction calls generalizing self r with
  | nil => exact ⟨rfl, rfl, rfl, rfl⟩
  | cons op rest ih =>
    obtain ⟨h0, h1, h2, h3⟩ := exec_pins ops B op self r
    obtain ⟨k0, k1, k2, k3⟩ := ih (op.exec ops B self r).2.1 (op.exec ops B self r).2.2
    simp only [Op.execAll]
    exact ⟨k0.trans h0, k1.trans h1, k2.trans h2, k3.trans h3⟩

/-- A property of traces that survives every runtime call of an operation body and every
`SPItransfer` of the objects with the given software-SPI pins survives every call. -/
theorem exec_preserves (ops : Opcodes) (B : Board σ) (P : List Event → Prop)
    (clk mosi miso : Int)
    (hcall : ∀ t w, P t → P (t ++ [Event.call w]))
    (hx : ∀ (s : Adafruit_FRAM_SPI), s._clk = clk → s._mosi = mosi → s._miso = miso →
      ∀ x (q : Run σ), P q.trace → P (SPItransfer B s x q).2.trace)
    (op : Op) (self : Adafruit_FRAM_SPI) (r : Run σ)
    (h1 : self._clk = clk) (h2 : self._mosi = mosi) (h3 : self._miso = miso)
    (hP : P r.trace) : P (op.exec ops B self r).2.2.trace := by
  have hX : ∀ x (q : Run σ), P q.trace → P (SPItransfer B self x q).2.trace :=
    hx self h1 h2 h3
  have hW : ∀ pin val (q : Run σ), P q.trace → P (digitalWrite B pin val q).trace :=
    fun pin val q hq => hcall _ _ hq
  have hM : ∀ pin mode (q : Run σ), P q.trace → P (pinMode B pin mode q).trace :=
    fun pin mode q hq => hcall _ _ hq
  have hA : ∀ a (q : Run σ), P q.trace → P (sendAddress B self a q).trace := by
    intro a q hq
    unfold sendAddress
    by_cases c2 : self._addressLengthInBytes > 2 <;>
    by_cases c1 : self._addressLengthInBytes > 1 <;>
    simp only [c2, c1, if_true, if_false]
    · exact hX _ _ (hX _ _ (hX _ _ hq))
    · exact hX _ _ (hX _ _ hq)
    · exact hX _ _ (hX _ _ hq)
    · exact hX _ _ hq
  have hL : ∀ values k i (q : Run σ), P q.trace → P (write_loop B self values k i q).trace := by
    intro values k
    induction k with
    | zero => intro i q hq; exact hq
    | succ k ih => intro i q hq; exact ih _ _ (hX _ _ hq)
  have hG : ∀ (q : Run σ), P q.trace → P (getDeviceID ops B self q).2.trace :=
    fun q hq => hW _ _ _ (hX _ _ (hX _ _ (hX _ _ (hX _ _ (hX _ _ (hW _ _ _ hq))))))
  cases op with
  | begin =>
    simp only [Op.exec, begin]
    apply hG
    by_cases hc : self._clk = -1
    · simp only [hc, if_true]
      exact hcall _ _ (hcall _ _ (hcall _ _ (hW _ _ _ (hM _ _ _ hP))))
    · simp only [hc, if_false]
      exact hM _ _ _ (hM _ _ _ (hM _ _ _ (hW _ _ _ (hM _ _ _ hP))))
  | getAddressLengthInBytes => exact hP
  | setAddressLengthInBytes value => exact hP
  | writeEnable enable =>
    simp only [Op.exec, writeEnable]
    cases enable
    · exact hW _ _ _ (hX _ _ (hW _ _ _ hP))
    · exact hW _ _ _ (hX _ _ (hW _ _ _ hP))
  | write8 addr value =>
    simp only [Op.exec, write8_eq]
    exact hW _ _ _ (hX _ _ (hA _ _ (hX _ _ (hW _ _ _ hP))))
  | write addr values count =>
    simp only [Op.exec, write_eq]
    exact hW _ _ _ (hL _ _ _ _ (hA _ _ (hX _ _ (hW _ _ _ hP))))
  | read8 addr =>
    simp only [Op.exec, read8_eq]
    exact hW _ _ _ (hX _ _ (hA _ _ (hX _ _ (hW _ _ _ hP))))
  | getDeviceID => exact hG _ hP
  | getStatusRegister =>
    simp only [Op.exec, getStatusRegister]
    exact hW _ _ _ (hX _ _ (hX _ _ (hW _ _ _ hP)))
  | setStatusRegister value =>
    simp only [Op.exec, setStatusRegister]
    exact hW _ _ _ (hX _ _ (hX _ _ (hW _ _ _ hP)))

theorem execAll_preserves (ops : Opcodes) (B : Board σ) (P : List Event → Prop)
    (clk mosi miso : Int)
    (hcall : ∀ t w, P t → P (t ++ [Event.call w]))
    (hx : ∀ (s : Adafruit_FRAM_SPI), s._clk = clk → s._mosi = mosi → s._miso = miso →
      ∀ x (q : Run σ), P q.trace → P (SPItransfer B s x q).2.trace)
    (calls : List Op) (self : Adafruit_FRAM_SPI) (r : Run σ)
    (h1 : self._clk = clk) (h2 : self._mosi = mosi) (h3 : self._miso = miso)
    (hP : P r.trace) : P (Op.execAll ops B calls self r).2.trace := by
  induction calls generalizing self r with
  | nil => exact hP
  | cons op rest ih =>
    obtain ⟨-, k1, k2, k3⟩ := exec_pins ops B op self r
    simp only [Op.execAll]
    exact ih _ _ (k1.trans h1) (k2.trans h2) (k3.trans h3)
      (exec_preserves ops B P clk mosi miso hcall hx op self r h1 h2 h3 hP)

/-- Calls of an operation body keep the strategy property of a trace. -/
theorem byStrategy_call (clk mosi miso : Int) (t : List Event) (w : Wire)
    (h : ByStrategy clk mosi miso t) : ByStrategy clk mosi miso (t ++ [Event.call w]) := by
  intro e he
  rcases List.mem_append.mp he with he | he
  · exact h e he
  · rw [List.mem_singleton.mp he]
    exact ⟨fun _ => trivial, fun _ => trivial⟩

/-- Every `SPItransfer` goes through the strategy that the clock pin selects. -/
theorem byStrategy_SPItransfer (B : Board σ) (s : Adafruit_FRAM_SPI) (x : Nat) (q : Run σ)
    (h : ByStrategy s._clk s._mosi s._miso q.trace) :
    ByStrategy s._clk s._mosi s._miso (SPItransfer B s x q).2.trace := by
  by_cases hc : s._clk = -1
  · rw [(SPItransfer_hardware B s x q hc).2]
    intro e he
    rcases List.mem_append.mp he with he | he
    · exact h e he
    · rw [List.mem_singleton.mp he]
      exact ⟨fun _ => ⟨_, rfl⟩, fun hn => absurd hc hn⟩
  · obtain ⟨bs, hl, -, htr⟩ := SPItransfer_software B s x q hc
    rw [htr]
    intro e he
    rcases List.mem_append.mp he with he | he
    · exact h e he
    · rw [List.mem_singleton.mp he]
      exact ⟨fun hn => absurd hn hc, fun _ => ⟨bs, hl, rfl⟩⟩

/-- Over any sequence of calls, every byte exchange goes through the strategy selected
by the clock pin the sequence started with. -/
theorem execAll_byStrategy (ops : Opcodes) (B : Board σ) (calls : List Op)
    (self : Adafruit_FRAM_SPI) (r : Run σ)
    (h : ByStrategy self._clk self._mosi self._miso r.trace) :
    ByStrategy self._clk self._mosi self._miso (Op.execAll ops B calls self r).2.trace := by
  refine execAll_preserves ops B (ByStrategy self._clk self._mosi self._miso)
    self._clk self._mosi self._miso (fun t w ht => byStrategy_call _ _ _ t w ht) ?_
    calls self r rfl rfl rfl h
  intro s h1 h2 h3 x q hq
  rw [← h1, ← h2, ← h3] at hq ⊢
  exact byStrategy_SPItransfer B s x q hq

/-- Framing of an address that fits the parameter type: for a width `w` in `{1,2,3}` set
with `setAddressLengthInBytes`, each of `write8`, `write` and `read8` transmits, right
after the opcode byte, the `w` least-significant bytes of `A`, most significant first,
provided `A` is below `2 ^ 16` when `w = 3`. -/
theorem framing_of_16bit_address (ops : Opcodes) (B : Board σ) (self : Adafruit_FRAM_SPI)
    (world : σ) (w A v : Nat) (values : List Nat) (count : Nat)
    (hw : 1 ≤ w ∧ w ≤ 3) (hA : w = 3 → A < 65536) (hc : count ≤ values.length) :
    (addressBytes w A).length = w ∧
    txBytes (write8 ops B (setAddressLengthInBytes self w) A v (Run.start world)).trace
      = [ops.OPCODE_WRITE % 256] ++ addressBytes w A ++ [v % 256] ∧
    txBytes (write ops B (setAddressLengthInBytes self w) A values count
        (Run.start world)).trace
      = [ops.OPCODE_WRITE % 256] ++ addressBytes w A
          ++ (values.take count).map (fun b => b % 256) ∧
    txBytes (read8 ops B (setAddressLengthInBytes self w) A (Run.start world)).2.trace
      = [ops.OPCODE_READ % 256] ++ addressBytes w A ++ [0] := by
  have hw256 : w % 256 = w := Nat.mod_eq_of_lt (by omega)
  have hs : (setAddressLengthInBytes self w)._addressLengthInBytes = w := by
    simp [setAddressLengthInBytes, hw256]
  have hb : sentAddress w (A % 65536) = addressBytes w A := by
    rw [sentAddress_eq_addressBytes w _ hw]
    obtain ⟨hl, hu⟩ := hw
    interval_cases w
    · simp [addressBytes, List.range_succ]; omega
    · simp [addressBytes, List.range_succ]; omega
    · rw [Nat.mod_eq_of_lt (hA rfl)]
  refine ⟨addressBytes_length w A, ?_, ?_, ?_⟩
  · simp [write8_eq, txBytes_digitalWrite, txBytes_SPItransfer, txBytes_sendAddress, hs, hb,
      Run.start, txBytes]
  · simp [write_eq, txBytes_digitalWrite, txBytes_SPItransfer, txBytes_sendAddress, hs, hb,
      txBytes_write_loop _ _ _ _ _ _ (show 0 + count ≤ values.length by omega),
      Run.start, txBytes]
  · simp [read8_eq, txBytes_digitalWrite, txBytes_SPItransfer, txBytes_sendAddress, hs, hb,
      Run.start, txBytes]

end Lemmas

/-! ## The claims -/

section Claims
variable {σ : Type}

/-- C1. Round trip against the reference chip, write-enabled and decoding frames with
the controller's address width `w` in `{1,2,3}`: for every address `A` and every byte
`v`, `write8(A, v)` followed by `read8(A)` returns `v`. -/
theorem C1_write8_read8_round_trip (ops : Opcodes) (self : Adafruit_FRAM_SPI)
    (mem : Nat → Nat) (A v : Nat)
    (hw : 1 ≤ self._addressLengthInBytes ∧ self._addressLengthInBytes ≤ 3)
    (hp : Wiring self) (hv : v < 256) :
    (read8 ops (chipBoard ops self._addressLengthInBytes self) self A
      (Run.start (write8 ops (chipBoard ops self._addressLengthInBytes self) self A v
        (Run.start (Wired.idle mem))).world)).1 = v := by
  have h0 : Idle (Run.start (Wired.idle mem)).world mem true := rfl
  have h1 := write8_chip ops self hp hw A v _ mem h0
  have h2 := read8_chip ops self hp hw A
    (Run.start (write8 ops (chipBoard ops self._addressLengthInBytes self) self A v
      (Run.start (Wired.idle mem))).world) _ true h1
  rw [h2]
  simp [Chip.store, Nat.mod_eq_of_lt hv]

/-- C1 at a concrete input: a bit-banged controller with three address bytes writes
`0xAB` to `0x012345` and reads it back. -/
theorem C1_write8_read8_round_trip_witness :
    (read8 Opcodes.fujitsu
      (chipBoard Opcodes.fujitsu 3
        (setAddressLengthInBytes (Adafruit_FRAM_SPI.software 13 12 11 10 0) 3))
      (setAddressLengthInBytes (Adafruit_FRAM_SPI.software 13 12 11 10 0) 3) 0x012345
      (Run.start (write8 Opcodes.fujitsu
        (chipBoard Opcodes.fujitsu 3
          (setAddressLengthInBytes (Adafruit_FRAM_SPI.software 13 12 11 10 0) 3))
        (setAddressLengthInBytes (Adafruit_FRAM_SPI.software 13 12 11 10 0) 3) 0x012345 0xAB
        (Run.start (Wired.idle (fun _ => 0)))).world)).1 = 0xAB :=
  C1_write8_read8_round_trip Opcodes.fujitsu
    (setAddressLengthInBytes (Adafruit_FRAM_SPI.software 13 12 11 10 0) 3) (fun _ => 0)
    0x012345 0xAB (by decide) (by decide) (by decide)

/-- C2, as amended. Block round trip against the reference chip, write-enabled and
decoding frames with the controller's address width `w` in `{1,2,3}`: when the block is
no longer than the chip's address space (`count ≤ 256 ^ w`) and, for `w = 3`, does not run
past the 16-bit range of `addr`, `write(A, values, count)` followed by `read8(A + i)`
returns `values[i]` (as a byte) for every `i < count`. -/
theorem C2_block_round_trip_in_range (ops : Opcodes) (self : Adafruit_FRAM_SPI)
    (mem : Nat → Nat) (A : Nat) (values : List Nat) (count i : Nat)
    (hw : 1 ≤ self._addressLengthInBytes ∧ self._addressLengthInBytes ≤ 3)
    (hp : Wiring self) (hc : count ≤ values.length)
    (hsize : count ≤ 256 ^ self._addressLengthInBytes)
    (h16 : self._addressLengthInBytes = 3 → A % 65536 + count ≤ 65536)
    (hi : i < count) :
    (read8 ops (chipBoard ops self._addressLengthInBytes self) self (A + i)
      (Run.start (write ops (chipBoard ops self._addressLengthInBytes self) self A values
        count (Run.start (Wired.idle mem))).world)).1 = values.getD i 0 % 256 := by
  have h0 : Idle (Run.start (Wired.idle mem)).world mem true := rfl
  have h1 := write_chip ops self hp hw A values count hc _ mem h0
  have h2 := read8_chip ops self hp hw (A + i)
    (Run.start (write ops (chipBoard ops self._addressLengthInBytes self) self A values
      count (Run.start (Wired.idle mem))).world) _ true h1
  rw [h2]
  have hlen : ((values.take count).map (fun b => b % 256)).length = count := by
    simp [Nat.min_eq_left hc]
  have haddr : (A + i) % 65536 % 256 ^ self._addressLengthInBytes
      = (A % 65536 % 256 ^ self._addressLengthInBytes + i) % 256 ^ self._addressLengthInBytes := by
    obtain ⟨hl, hu⟩ := hw
    generalize self._addressLengthInBytes = n at *
    interval_cases n
    · norm_num
    · norm_num
    · have := h16 rfl
      norm_num; omega
  rw [haddr, store_get _ _ _ _ _ (by rw [hlen]; exact hsize) (by rw [hlen]; exact hi)]
  have hiv : i < values.length := by omega
  simp [List.getD_eq_getElem?_getD, List.getElem?_map, List.getElem?_take, hi,
    List.getElem?_eq_getElem hiv]

/-- C2 at a concrete input: with two address bytes a four-byte block written at `0xFFFE`
wraps around the address space, and `read8(0xFFFE + 3)` returns its last byte. -/
theorem C2_block_round_trip_in_range_witness :
    (read8 Opcodes.fujitsu (chipBoard Opcodes.fujitsu 2 (Adafruit_FRAM_SPI.hardware 10))
      (Adafruit_FRAM_SPI.hardware 10) (0xFFFE + 3)
      (Run.start (write Opcodes.fujitsu
        (chipBoard Opcodes.fujitsu 2 (Adafruit_FRAM_SPI.hardware 10))
        (Adafruit_FRAM_SPI.hardware 10) 0xFFFE [1, 2, 3, 4] 4
        (Run.start (Wired.idle (fun _ => 0)))).world)).1 = 4 :=
  C2_block_round_trip_in_range Opcodes.fujitsu (Adafruit_FRAM_SPI.hardware 10) (fun _ => 0)
    0xFFFE [1, 2, 3, 4] 4 3 (by decide) (by decide) (by decide) (by decide)
    (by decide) (by decide)

set_option maxRecDepth 100000 in
/-- C2 fails as stated. With one address byte the chip has 256 cells: a block of 257
bytes `0, …, 0, 1` written at address `0` puts its last byte over its first, and
`read8(0)` then returns `1`, not `values[0] = 0`.  With three address bytes a two-byte
block `1, 2` written at `0xFFFF` puts `2` into cell `0x010000`, while `read8(0xFFFF + 1)`
sends the 16-bit address `0x0000` and returns the `0` stored there, not `values[1] = 2`. -/
theorem C2_block_round_trip_counterexample :
    (257 ≤ (List.replicate 256 0 ++ [1]).length ∧
     (read8 Opcodes.fujitsu
        (chipBoard Opcodes.fujitsu 1
          (setAddressLengthInBytes (Adafruit_FRAM_SPI.hardware 10) 1))
        (setAddressLengthInBytes (Adafruit_FRAM_SPI.hardware 10) 1) (0 + 0)
        (Run.start (write Opcodes.fujitsu
          (chipBoard Opcodes.fujitsu 1
            (setAddressLengthInBytes (Adafruit_FRAM_SPI.hardware 10) 1))
          (setAddressLengthInBytes (Adafruit_FRAM_SPI.hardware 10) 1) 0
          (List.replicate 256 0 ++ [1]) 257
          (Run.start (Wired.idle (fun _ => 0)))).world)).1
       ≠ (List.replicate 256 0 ++ [1]).getD 0 0) ∧
    (2 ≤ [1, 2].length ∧
     (read8 Opcodes.fujitsu
        (chipBoard Opcodes.fujitsu 3
          (setAddressLengthInBytes (Adafruit_FRAM_SPI.hardware 10) 3))
        (setAddressLengthInBytes (Adafruit_FRAM_SPI.hardware 10) 3) (0xFFFF + 1)
        (Run.start (write Opcodes.fujitsu
          (chipBoard Opcodes.fujitsu 3
            (setAddressLengthInBytes (Adafruit_FRAM_SPI.hardware 10) 3))
          (setAddressLengthInBytes (Adafruit_FRAM_SPI.hardware 10) 3) 0xFFFF [1, 2] 2
          (Run.start (Wired.idle (fun _ => 0)))).world)).1
       ≠ [1, 2].getD 1 0) := by
  decide

/-- C3. The claim holds for widths 1 and 2 and fails for width 3.  After
`setAddressLengthInBytes(w)` with `w` in `{1,2}`, each of `write8`, `write` and `read8`
called with any address `A` transmits, right after the opcode byte, exactly the `w`
least-significant bytes of `A`, most significant first; with `w = 3` it does so only for
`A` below `2 ^ 16`.  For `A = 0x012345` the three least-significant bytes are
`01 23 45`, and the code sends `00 23 45`, because `addr` is a `uint16_t` (the defect
of C4). -/
theorem C3_width3_high_address_byte_not_sent (ops : Opcodes) (B : Board σ)
    (self : Adafruit_FRAM_SPI) (world : σ) (A v : Nat) (values : List Nat) (count : Nat) :
    (∀ w, (w = 1 ∨ w = 2 ∨ (w = 3 ∧ A < 65536)) →
      (addressBytes w A).length = w ∧
      txBytes (write8 ops B (setAddressLengthInBytes self w) A v (Run.start world)).trace
        = [ops.OPCODE_WRITE % 256] ++ addressBytes w A ++ [v % 256] ∧
      txBytes (read8 ops B (setAddressLengthInBytes self w) A (Run.start world)).2.trace
        = [ops.OPCODE_READ % 256] ++ addressBytes w A ++ [0] ∧
      (count ≤ values.length →
        txBytes (write ops B (setAddressLengthInBytes self w) A values count
            (Run.start world)).trace
          = [ops.OPCODE_WRITE % 256] ++ addressBytes w A
            ++ (values.take count).map (fun b => b % 256))) ∧
    addressBytes 3 0x012345 = [0x01, 0x23, 0x45] ∧
    txBytes (write8 ops B (setAddressLengthInBytes self 3) 0x012345 v
        (Run.start world)).trace = [ops.OPCODE_WRITE % 256, 0x00, 0x23, 0x45, v % 256] ∧
    txBytes (read8 ops B (setAddressLengthInBytes self 3) 0x012345
        (Run.start world)).2.trace = [ops.OPCODE_READ % 256, 0x00, 0x23, 0x45, 0] ∧
    txBytes (write ops B (setAddressLengthInBytes self 3) 0x012345 [v] 1
        (Run.start world)).trace = [ops.OPCODE_WRITE % 256, 0x00, 0x23, 0x45, v % 256] := by
  have hs : (setAddressLengthInBytes self 3)._addressLengthInBytes = 3 := by
    simp [setAddressLengthInBytes]
  have hb : sentAddress 3 (0x012345 % 65536) = [0x00, 0x23, 0x45] := by
    rw [sentAddress_eq_addressBytes 3 _ (by omega),
      addressBytes_three _ (Nat.mod_lt _ (by norm_num))]
  refine ⟨?_, by decide, ?_, ?_, ?_⟩
  · intro w hw
    have hw' : 1 ≤ w ∧ w ≤ 3 := by omega
    have hA : w = 3 → A < 65536 := by omega
    have h0 := framing_of_16bit_address ops B self world w A v [] 0 hw' hA (by simp)
    refine ⟨h0.1, h0.2.1, h0.2.2.2, fun hc => ?_⟩
    exact (framing_of_16bit_address ops B self world w A v values count hw' hA hc).2.2.1
  · simp [write8_eq, txBytes_digitalWrite, txBytes_SPItransfer, txBytes_sendAddress, hs, hb,
      Run.start, txBytes]
  · simp [read8_eq, txBytes_digitalWrite, txBytes_SPItransfer, txBytes_sendAddress, hs, hb,
      Run.start, txBytes]
  · simp [write_eq, txBytes_digitalWrite, txBytes_SPItransfer, txBytes_sendAddress, hs, hb,
      txBytes_write_loop _ _ _ _ _ _ (show 0 + 1 ≤ [v].length by simp), Run.start, txBytes]

/-- C4. With address width 3 the first address byte sent by `write8`, `write` and
`read8` is `0` for every address, because `addr` is a `uint16_t`: for `A = 0x012345` the
frame carries `0x00 0x23 0x45`, whereas bits 23-16 of `A` are `0x01`. -/
theorem C4_width3_first_address_byte_is_zero (ops : Opcodes) (B : Board σ)
    (self : Adafruit_FRAM_SPI) (world : σ) (A v : Nat) :
    txBytes (write8 ops B (setAddressLengthInBytes self 3) A v (Run.start world)).trace
      = [ops.OPCODE_WRITE % 256, 0, A / 256 % 256, A % 256, v % 256] ∧
    txBytes (write ops B (setAddressLengthInBytes self 3) A [v] 1 (Run.start world)).trace
      = [ops.OPCODE_WRITE % 256, 0, A / 256 % 256, A % 256, v % 256] ∧
    txBytes (read8 ops B (setAddressLengthInBytes self 3) A (Run.start world)).2.trace
      = [ops.OPCODE_READ % 256, 0, A / 256 % 256, A % 256, 0] ∧
    txBytes (write8 ops B (setAddressLengthInBytes self 3) 0x012345 0xAB
        (Run.start world)).trace = [ops.OPCODE_WRITE % 256, 0x00, 0x23, 0x45, 0xAB] ∧
    (0x012345 >>> 16) &&& 0xFF = 0x01 := by
  have hs : (setAddressLengthInBytes self 3)._addressLengthInBytes = 3 := by
    simp [setAddressLengthInBytes]
  have hA : ∀ a : Nat, sentAddress 3 (a % 65536) = [0, a / 256 % 256, a % 256] := by
    intro a
    rw [sentAddress_eq_addressBytes 3 _ (by omega),
      addressBytes_three _ (Nat.mod_lt _ (by norm_num))]
    have e1 : a % 65536 / 256 % 256 = a / 256 % 256 := by omega
    have e2 : a % 65536 % 256 = a % 256 := by omega
    rw [e1, e2]
  have key : ∀ a b : Nat,
      txBytes (write8 ops B (setAddressLengthInBytes self 3) a b (Run.start world)).trace
        = [ops.OPCODE_WRITE % 256, 0, a / 256 % 256, a % 256, b % 256] := by
    intro a b
    simp [write8_eq, txBytes_digitalWrite, txBytes_SPItransfer, txBytes_sendAddress, hs, hA,
      Run.start, txBytes]
  refine ⟨key A v, ?_, ?_, key 0x012345 0xAB, by decide⟩
  · simp [write_eq, txBytes_digitalWrite, txBytes_SPItransfer, txBytes_sendAddress, hs, hA,
      txBytes_write_loop _ _ _ _ _ _ (show 0 + 1 ≤ [v].length by simp), Run.start, txBytes]
  · simp [read8_eq, txBytes_digitalWrite, txBytes_SPItransfer, txBytes_sendAddress, hs, hA,
      Run.start, txBytes]

/-- C5. For every address `A`, buffer and `count ≤ values.length`, `write` returns and
its bus trace is exactly: chip-select low, the `WRITE` opcode, the address bytes of `A`,
then `values[0] … values[count-1]` in order, chip-select high; opcode and address are
sent once, and for a width `w` in `{1,2,3}` that makes `1 + w + count` bytes. -/
theorem C5_write_block_frame (ops : Opcodes) (B : Board σ) (self : Adafruit_FRAM_SPI)
    (world : σ) (A : Nat) (values : List Nat) (count : Nat)
    (hw : 1 ≤ self._addressLengthInBytes ∧ self._addressLengthInBytes ≤ 3)
    (hc : count ≤ values.length) :
    outs (write ops B self A values count (Run.start world)).trace
      = [Out.pin (Wire.digitalWrite self._cs LOW), Out.byte (ops.OPCODE_WRITE % 256)]
        ++ (addressBytes self._addressLengthInBytes (A % 65536)).map Out.byte
        ++ (values.take count).map (fun b => Out.byte (b % 256))
        ++ [Out.pin (Wire.digitalWrite self._cs HIGH)] ∧
    txBytes (write ops B self A values count (Run.start world)).trace
      = [ops.OPCODE_WRITE % 256] ++ addressBytes self._addressLengthInBytes (A % 65536)
        ++ (values.take count).map (fun b => b % 256) ∧
    (txBytes (write ops B self A values count (Run.start world)).trace).length
      = 1 + self._addressLengthInBytes + count := by
  have h1 : txBytes (write ops B self A values count (Run.start world)).trace
      = [ops.OPCODE_WRITE % 256] ++ addressBytes self._addressLengthInBytes (A % 65536)
        ++ (values.take count).map (fun b => b % 256) := by
    simp [write_eq, txBytes_digitalWrite, txBytes_SPItransfer, txBytes_sendAddress,
      txBytes_write_loop _ _ _ _ _ _ (show 0 + count ≤ values.length by omega),
      sentAddress_eq_addressBytes _ _ hw, Run.start, txBytes]
  refine ⟨?_, h1, ?_⟩
  · simp [write_eq, outs_digitalWrite, outs_SPItransfer, outs_sendAddress,
      outs_write_loop _ _ _ _ _ _ (show 0 + count ≤ values.length by omega),
      sentAddress_eq_addressBytes _ _ hw, Run.start, outs_nil]
  · rw [h1]
    simp [addressBytes_length, Nat.min_eq_left hc]
    omega

/-- C5 at a concrete input: a three-byte block at `0x1234` with the default width. -/
theorem C5_write_block_frame_witness :
    txBytes (write Opcodes.fujitsu scriptBoard (Adafruit_FRAM_SPI.hardware 10) 0x1234
        [7, 8, 9, 10] 3 (Run.start [])).trace = [0x02, 0x12, 0x34, 7, 8, 9] :=
  (C5_write_block_frame Opcodes.fujitsu scriptBoard (Adafruit_FRAM_SPI.hardware 10) []
    0x1234 [7, 8, 9, 10] 3 (by decide) (by decide)).2.1

/-- C6. Each of `writeEnable`, `write8`, `write`, `read8`, `getDeviceID`,
`getStatusRegister` and `setStatusRegister`, for all arguments and whatever the board
answers, produces a trace bracketed by one chip-select pair: chip-select low comes first,
chip-select high last, and only byte exchanges lie between (for `write`, all data
bytes).  When chip-select is a line of its own (hardware mode, or `_cs` different from
`_clk` and `_mosi`), the levels written to the chip-select pin over the whole operation,
the calls inside the exchanges included, are exactly low, high. -/
theorem C6_one_chip_select_pair (ops : Opcodes) (B : Board σ) (self : Adafruit_FRAM_SPI)
    (world : σ) (enable : Bool) (A v : Nat) (values : List Nat) (count : Nat) :
    (Bracketed self._cs (writeEnable ops B self enable (Run.start world)).trace ∧
     Bracketed self._cs (write8 ops B self A v (Run.start world)).trace ∧
     Bracketed self._cs (write ops B self A values count (Run.start world)).trace ∧
     Bracketed self._cs (read8 ops B self A (Run.start world)).2.trace ∧
     Bracketed self._cs (getDeviceID ops B self (Run.start world)).2.trace ∧
     Bracketed self._cs (getStatusRegister ops B self (Run.start world)).2.trace ∧
     Bracketed self._cs (setStatusRegister ops B self v (Run.start world)).trace) ∧
    ((self._clk = -1 ∨ (self._cs ≠ self._clk ∧ self._cs ≠ self._mosi)) →
     csLevels self._cs (wires (writeEnable ops B self enable (Run.start world)).trace)
       = [LOW, HIGH] ∧
     csLevels self._cs (wires (write8 ops B self A v (Run.start world)).trace)
       = [LOW, HIGH] ∧
     csLevels self._cs (wires (write ops B self A values count (Run.start world)).trace)
       = [LOW, HIGH] ∧
     csLevels self._cs (wires (read8 ops B self A (Run.start world)).2.trace)
       = [LOW, HIGH] ∧
     csLevels self._cs (wires (getDeviceID ops B self (Run.start world)).2.trace)
       = [LOW, HIGH] ∧
     csLevels self._cs (wires (getStatusRegister ops B self (Run.start world)).2.trace)
       = [LOW, HIGH] ∧
     csLevels self._cs (wires (setStatusRegister ops B self v (Run.start world)).trace)
       = [LOW, HIGH]) := by
  have h0 := opened_start B self._cs world
  refine ⟨⟨?_, ?_, ?_, ?_, ?_, ?_, ?_⟩, fun hp => ⟨?_, ?_, ?_, ?_, ?_, ?_, ?_⟩⟩
  · unfold writeEnable
    cases enable
    · exact bracketed_close _ _ _ (opened_SPItransfer _ _ _ _ _ h0)
    · exact bracketed_close _ _ _ (opened_SPItransfer _ _ _ _ _ h0)
  · exact bracketed_close _ _ _ (opened_SPItransfer _ _ _ _ _
      (opened_sendAddress _ _ _ _ _ (opened_SPItransfer _ _ _ _ _ h0)))
  · exact bracketed_close _ _ _ (opened_write_loop _ _ _ _ _ _ _
      (opened_sendAddress _ _ _ _ _ (opened_SPItransfer _ _ _ _ _ h0)))
  · exact bracketed_close _ _ _ (opened_SPItransfer _ _ _ _ _
      (opened_sendAddress _ _ _ _ _ (opened_SPItransfer _ _ _ _ _ h0)))
  · exact bracketed_close _ _ _ (opened_SPItransfer _ _ _ _ _ (opened_SPItransfer _ _ _ _ _
      (opened_SPItransfer _ _ _ _ _ (opened_SPItransfer _ _ _ _ _
        (opened_SPItransfer _ _ _ _ _ h0)))))
  · exact bracketed_close _ _ _ (opened_SPItransfer _ _ _ _ _
      (opened_SPItransfer _ _ _ _ _ h0))
  · exact bracketed_close _ _ _ (opened_SPItransfer _ _ _ _ _
      (opened_SPItransfer _ _ _ _ _ h0))
  · cases enable <;>
      simp [writeEnable, csLevels_digitalWrite, csLevels_SPItransfer _ _ _ _ hp, Run.start,
        wires, csLevels]
  · simp [write8_eq, csLevels_digitalWrite, csLevels_SPItransfer _ _ _ _ hp,
      csLevels_sendAddress _ _ _ _ hp, Run.start, wires, csLevels]
  · simp [write_eq, csLevels_digitalWrite, csLevels_SPItransfer _ _ _ _ hp,
      csLevels_sendAddress _ _ _ _ hp, csLevels_write_loop _ _ _ _ _ _ hp, Run.start,
      wires, csLevels]
  · simp [read8_eq, csLevels_digitalWrite, csLevels_SPItransfer _ _ _ _ hp,
      csLevels_sendAddress _ _ _ _ hp, Run.start, wires, csLevels]
  · simp [getDeviceID, csLevels_digitalWrite, csLevels_SPItransfer _ _ _ _ hp, Run.start,
      wires, csLevels]
  · simp [getStatusRegister, csLevels_digitalWrite, csLevels_SPItransfer _ _ _ _ hp,
      Run.start, wires, csLevels]
  · simp [setStatusRegister, csLevels_digitalWrite, csLevels_SPItransfer _ _ _ _ hp,
      Run.start, wires, csLevels]

/-- C6 at a concrete input: a bit-banged `write8` on pins 13, 12, 11 with chip-select
on pin 10 writes low, then high, to pin 10 and nothing else. -/
theorem C6_one_chip_select_pair_witness :
    csLevels 10 (wires (write8 Opcodes.fujitsu scriptBoard
      (Adafruit_FRAM_SPI.software 13 12 11 10 2) 0x1234 0xAB (Run.start [])).trace)
      = [LOW, HIGH] :=
  ((C6_one_chip_select_pair Opcodes.fujitsu scriptBoard
    (Adafruit_FRAM_SPI.software 13 12 11 10 2) [] true 0x1234 0xAB [] 0).2
      (Or.inr ⟨by decide, by decide⟩)).2.1

/-- C7. `getDeviceID` transmits the `RDID` opcode followed by four zero bytes and no
address byte, whatever the address width; with `[a0, a1, a2, a3]` the four bytes received
after the opcode exchange, it returns manufacturer `a0` and product `(a2 << 8) | a3`, in
which `a1` does not occur.  Every four bytes can be received: a board that answers
`r0, a0, a1, a2, a3` yields exactly that result. -/
theorem C7_getDeviceID_byte_shuffle (ops : Opcodes) (B : Board σ)
    (self : Adafruit_FRAM_SPI) (world : σ) :
    txBytes (getDeviceID ops B self (Run.start world)).2.trace
      = [ops.OPCODE_RDID % 256, 0, 0, 0, 0] ∧
    (rxBytes (getDeviceID ops B self (Run.start world)).2.trace).length = 5 ∧
    (∀ r0 a0 a1 a2 a3 : Nat,
      rxBytes (getDeviceID ops B self (Run.start world)).2.trace = [r0, a0, a1, a2, a3] →
      (getDeviceID ops B self (Run.start world)).1 = (a0, (a2 <<< 8) ||| a3)) ∧
    (∀ (cs r0 a0 a1 a2 a3 : Nat), a0 < 256 → a1 < 256 → a2 < 256 → a3 < 256 →
      (getDeviceID ops scriptBoard (Adafruit_FRAM_SPI.hardware cs)
          (Run.start [r0, a0, a1, a2, a3])).1 = (a0, (a2 <<< 8) ||| a3)) := by
  refine ⟨?_, ?_, ?_, ?_⟩
  · simp [getDeviceID, txBytes_digitalWrite, txBytes_SPItransfer, Run.start, txBytes]
  · simp [getDeviceID, rxBytes_digitalWrite, rxBytes_SPItransfer, Run.start, rxBytes]
  · intro r0 a0 a1 a2 a3 h
    simp only [getDeviceID, rxBytes_digitalWrite, rxBytes_SPItransfer, Run.start, rxBytes,
      List.nil_append, List.append_assoc, List.singleton_append, List.cons.injEq,
      and_true] at h
    obtain ⟨-, rfl, -, rfl, rfl⟩ := h
    simp only [getDeviceID, Run.start]
    rw [Nat.mod_eq_of_lt (SPItransfer_lt _ _ _ _),
      shift_add_eq_or _ _ (SPItransfer_lt _ _ _ _) (SPItransfer_lt _ _ _ _)]
  · intro cs r0 a0 a1 a2 a3 b0 b1 b2 b3
    simp only [getDeviceID, SPItransfer, digitalWrite, scriptBoard, Adafruit_FRAM_SPI.hardware,
      Run.start, if_true, List.headD_cons, List.tail_cons]
    rw [Nat.mod_eq_of_lt b0, Nat.mod_eq_of_lt b0, Nat.mod_eq_of_lt b2, Nat.mod_eq_of_lt b3,
      shift_add_eq_or a2 a3 b2 b3]

/-- C8. For a width in `{1,2,3}`, `read8(A)` transmits the `READ` opcode, the address
bytes `write8` transmits for `A`, then one byte of value `0`; it returns the byte
received in that last exchange, whatever was received before. -/
theorem C8_read8_frame_and_result (ops : Opcodes) (B : Board σ) (self : Adafruit_FRAM_SPI)
    (world : σ) (A v : Nat)
    (hw : 1 ≤ self._addressLengthInBytes ∧ self._addressLengthInBytes ≤ 3) :
    txBytes (read8 ops B self A (Run.start world)).2.trace
      = [ops.OPCODE_READ % 256] ++ addressBytes self._addressLengthInBytes (A % 65536)
        ++ [0] ∧
    txBytes (write8 ops B self A v (Run.start world)).trace
      = [ops.OPCODE_WRITE % 256] ++ addressBytes self._addressLengthInBytes (A % 65536)
        ++ [v % 256] ∧
    (rxBytes (read8 ops B self A (Run.start world)).2.trace).getLast?
      = some (read8 ops B self A (Run.start world)).1 ∧
    (rxBytes (read8 ops B self A (Run.start world)).2.trace).length
      = (txBytes (read8 ops B self A (Run.start world)).2.trace).length := by
  refine ⟨?_, ?_, ?_, ?_⟩
  · simp [read8_eq, txBytes_digitalWrite, txBytes_SPItransfer, txBytes_sendAddress,
      sentAddress_eq_addressBytes _ _ hw, Run.start, txBytes]
  · simp [write8_eq, txBytes_digitalWrite, txBytes_SPItransfer, txBytes_sendAddress,
      sentAddress_eq_addressBytes _ _ hw, Run.start, txBytes]
  · simp [read8_eq, rxBytes_digitalWrite, rxBytes_SPItransfer]
  · exact rxBytes_length _

/-- C8 at a concrete input: `read8(0x1234)` with the default width, the board answering
`0xAA, 0xBB, 0xCC, 0x5A`. -/
theorem C8_read8_frame_and_result_witness :
    txBytes (read8 Opcodes.fujitsu scriptBoard (Adafruit_FRAM_SPI.hardware 10) 0x1234
        (Run.start [0xAA, 0xBB, 0xCC, 0x5A])).2.trace = [0x03, 0x12, 0x34, 0] ∧
    [0xAA, 0xBB, 0xCC, 0x5A].getLast? = some (read8 Opcodes.fujitsu scriptBoard
        (Adafruit_FRAM_SPI.hardware 10) 0x1234 (Run.start [0xAA, 0xBB, 0xCC, 0x5A])).1 :=
  ⟨(C8_read8_frame_and_result Opcodes.fujitsu scriptBoard (Adafruit_FRAM_SPI.hardware 10)
      [0xAA, 0xBB, 0xCC, 0x5A] 0x1234 0 (by decide)).1,
   (C8_read8_frame_and_result Opcodes.fujitsu scriptBoard (Adafruit_FRAM_SPI.hardware 10)
      [0xAA, 0xBB, 0xCC, 0x5A] 0x1234 0 (by decide)).2.2.1⟩

/-- C9. `writeEnable(true)` transmits one byte, the `WREN` opcode, and
`writeEnable(false)` one byte, the `WRDI` opcode; the whole trace is chip-select low,
that byte, chip-select high, for every controller state (so for every address width). -/
theorem C9_writeEnable_frame (ops : Opcodes) (B : Board σ) (self : Adafruit_FRAM_SPI)
    (world : σ) :
    txBytes (writeEnable ops B self true (Run.start world)).trace
      = [ops.OPCODE_WREN % 256] ∧
    txBytes (writeEnable ops B self false (Run.start world)).trace
      = [ops.OPCODE_WRDI % 256] ∧
    outs (writeEnable ops B self true (Run.start world)).trace
      = [Out.pin (Wire.digitalWrite self._cs LOW), Out.byte (ops.OPCODE_WREN % 256),
         Out.pin (Wire.digitalWrite self._cs HIGH)] ∧
    outs (writeEnable ops B self false (Run.start world)).trace
      = [Out.pin (Wire.digitalWrite self._cs LOW), Out.byte (ops.OPCODE_WRDI % 256),
         Out.pin (Wire.digitalWrite self._cs HIGH)] := by
  refine ⟨?_, ?_, ?_, ?_⟩
  · simp [writeEnable, txBytes_digitalWrite, txBytes_SPItransfer, Run.start, txBytes]
  · simp [writeEnable, txBytes_digitalWrite, txBytes_SPItransfer, Run.start, txBytes]
  · simp [writeEnable, outs_digitalWrite, outs_SPItransfer, Run.start, outs_nil]
  · simp [writeEnable, outs_digitalWrite, outs_SPItransfer, Run.start, outs_nil]

/-- C10. `setStatusRegister(value)` transmits exactly `[WRSR, value]`;
`getStatusRegister()` transmits exactly `[RDSR, 0]` and returns the byte received in the
second exchange; neither sends an address byte, for every controller state (so for every
address width). -/
theorem C10_status_register_frames (ops : Opcodes) (B : Board σ) (self : Adafruit_FRAM_SPI)
    (world : σ) (value : Nat) :
    outs (setStatusRegister ops B self value (Run.start world)).trace
      = [Out.pin (Wire.digitalWrite self._cs LOW), Out.byte (ops.OPCODE_WRSR % 256),
         Out.byte (value % 256), Out.pin (Wire.digitalWrite self._cs HIGH)] ∧
    txBytes (setStatusRegister ops B self value (Run.start world)).trace
      = [ops.OPCODE_WRSR % 256, value % 256] ∧
    outs (getStatusRegister ops B self (Run.start world)).2.trace
      = [Out.pin (Wire.digitalWrite self._cs LOW), Out.byte (ops.OPCODE_RDSR % 256),
         Out.byte 0, Out.pin (Wire.digitalWrite self._cs HIGH)] ∧
    txBytes (getStatusRegister ops B self (Run.start world)).2.trace
      = [ops.OPCODE_RDSR % 256, 0] ∧
    (∃ r0, rxBytes (getStatusRegister ops B self (Run.start world)).2.trace
      = [r0, (getStatusRegister ops B self (Run.start world)).1]) := by
  refine ⟨?_, ?_, ?_, ?_, ?_⟩
  · simp [setStatusRegister, outs_digitalWrite, outs_SPItransfer, Run.start, outs_nil]
  · simp [setStatusRegister, txBytes_digitalWrite, txBytes_SPItransfer, Run.start, txBytes]
  · simp [getStatusRegister, outs_digitalWrite, outs_SPItransfer, Run.start, outs_nil]
  · simp [getStatusRegister, txBytes_digitalWrite, txBytes_SPItransfer, Run.start, txBytes]
  · refine ⟨(SPItransfer B self ops.OPCODE_RDSR
      (digitalWrite B self._cs LOW (Run.start world))).1, ?_⟩
    simp [getStatusRegister, rxBytes_digitalWrite, rxBytes_SPItransfer, Run.start, rxBytes]

/-- C11. `begin()` cannot fail: for every controller state (hardware or software mode)
and whatever the board answers to the identification probe, it returns `true` and leaves
the initialisation flag set; it changes nothing else in the object.  On a board that
answers the probe with `r0, a0, a1, a2, a3` these bytes are received, and the result is
`true` for every choice of them. -/
theorem C11_begin_cannot_fail (ops : Opcodes) (B : Board σ) (self : Adafruit_FRAM_SPI)
    (r : Run σ) :
    (begin ops B self r).1 = true ∧
    (begin ops B self r).2.1 = { self with _framInitialised := true } ∧
    (begin ops B self r).2.1._framInitialised = true ∧
    (∀ (cs : Int) (r0 a0 a1 a2 a3 : Nat),
      rxBytes (begin ops scriptBoard (Adafruit_FRAM_SPI.hardware cs)
          (Run.start [r0, a0, a1, a2, a3])).2.2.trace
        = [r0 % 256, a0 % 256, a1 % 256, a2 % 256, a3 % 256] ∧
      (begin ops scriptBoard (Adafruit_FRAM_SPI.hardware cs)
          (Run.start [r0, a0, a1, a2, a3])).1 = true) := by
  refine ⟨by simp [begin], by simp [begin], by simp [begin], ?_⟩
  intro cs r0 a0 a1 a2 a3
  refine ⟨?_, by simp [begin]⟩
  simp [begin, getDeviceID, SPItransfer, digitalWrite, pinMode, scriptBoard,
    Adafruit_FRAM_SPI.hardware, Run.start, rxBytes_append, rxBytes]

/-- C12. The hardware-SPI constructor sets the address width to 2, the software-SPI
constructor does not assign it: `getAddressLengthInBytes()` then returns whatever the
object's storage held (`junk`), for instance `0` for a zero-initialised object, and
`write8` sends a single address byte instead of two. -/
theorem C12_software_constructor_leaves_width_unset (ops : Opcodes) (B : Board σ) (world : σ)
    (clk miso mosi cs : Int) (junk A v : Nat) :
    getAddressLengthInBytes (Adafruit_FRAM_SPI.hardware cs) = 2 ∧
    txBytes (write8 ops B (Adafruit_FRAM_SPI.hardware cs) A v (Run.start world)).trace
      = [ops.OPCODE_WRITE % 256, A / 256 % 256, A % 256, v % 256] ∧
    getAddressLengthInBytes (Adafruit_FRAM_SPI.software clk miso mosi cs junk) = junk % 256 ∧
    getAddressLengthInBytes (Adafruit_FRAM_SPI.software clk miso mosi cs 0) = 0 ∧
    txBytes (write8 ops B (Adafruit_FRAM_SPI.software clk miso mosi cs 0) A v
        (Run.start world)).trace
      = [ops.OPCODE_WRITE % 256, A % 256, v % 256] := by
  have hb2 : sentAddress 2 (A % 65536) = [A / 256 % 256, A % 256] := by
    rw [sentAddress_eq_addressBytes 2 _ (by omega)]
    simp [addressBytes, List.range_succ]
    omega
  have hb0 : sentAddress 0 (A % 65536) = [A % 256] := by
    rw [sentAddress_eq_addressBytes_clamp]
    simp [addressBytes, List.range_succ]
    omega
  have key : ∀ (self : Adafruit_FRAM_SPI) (bs : List Nat),
      sentAddress self._addressLengthInBytes (A % 65536) = bs →
      txBytes (write8 ops B self A v (Run.start world)).trace
        = [ops.OPCODE_WRITE % 256] ++ bs ++ [v % 256] := by
    intro self bs h
    simp [write8_eq, txBytes_digitalWrite, txBytes_SPItransfer, txBytes_sendAddress, h,
      Run.start, txBytes]
  exact ⟨rfl, key _ _ hb2, rfl, rfl, key _ _ hb0⟩

/-- C13, as amended. For the controller made by the hardware-SPI constructor, and for the
one made by the software-SPI constructor from clock, data-in and data-out arguments whose
`int8_t` values are all different from `-1`, the bus configuration is whole after any
sequence of calls: in the first case the three pins are unset and every byte exchange
went through the hardware strategy, in the second all three are set (to the `int8_t`
values of the arguments) and every byte exchange went through the software strategy on
these pins. -/
theorem C13_bus_configuration_whole (ops : Opcodes) (B : Board σ) (world : σ)
    (calls : List Op) (cs clk miso mosi : Int) (junk : Nat)
    (hclk : toInt8 clk ≠ -1) (hmiso : toInt8 miso ≠ -1) (hmosi : toInt8 mosi ≠ -1) :
    (WholeConfig (Op.execAll ops B calls (Adafruit_FRAM_SPI.hardware cs) (Run.start world)).1 ∧
     (Op.execAll ops B calls (Adafruit_FRAM_SPI.hardware cs) (Run.start world)).1._clk = -1 ∧
     (Op.execAll ops B calls (Adafruit_FRAM_SPI.hardware cs) (Run.start world)).1._mosi = -1 ∧
     (Op.execAll ops B calls (Adafruit_FRAM_SPI.hardware cs) (Run.start world)).1._miso = -1 ∧
     ∀ e ∈ (Op.execAll ops B calls (Adafruit_FRAM_SPI.hardware cs) (Run.start world)).2.trace,
       e.hardware) ∧
    (WholeConfig (Op.execAll ops B calls (Adafruit_FRAM_SPI.software clk miso mosi cs junk)
        (Run.start world)).1 ∧
     (Op.execAll ops B calls (Adafruit_FRAM_SPI.software clk miso mosi cs junk)
        (Run.start world)).1._clk = toInt8 clk ∧
     (Op.execAll ops B calls (Adafruit_FRAM_SPI.software clk miso mosi cs junk)
        (Run.start world)).1._mosi = toInt8 mosi ∧
     (Op.execAll ops B calls (Adafruit_FRAM_SPI.software clk miso mosi cs junk)
        (Run.start world)).1._miso = toInt8 miso ∧
     ∀ e ∈ (Op.execAll ops B calls (Adafruit_FRAM_SPI.software clk miso mosi cs junk)
        (Run.start world)).2.trace, e.software (toInt8 clk) (toInt8 mosi) (toInt8 miso)) := by
  have hempty : ∀ c m s, ByStrategy c m s (Run.start world).trace := by
    intro c m s e he
    simp [Run.start] at he
  constructor
  · obtain ⟨-, k1, k2, k3⟩ :=
      execAll_pins ops B calls (Adafruit_FRAM_SPI.hardware cs) (Run.start world)
    have hs := execAll_byStrategy ops B calls (Adafruit_FRAM_SPI.hardware cs)
      (Run.start world) (hempty _ _ _)
    refine ⟨Or.inl ⟨k1, k2, k3⟩, k1, k2, k3, fun e he => (hs e he).1 rfl⟩
  · obtain ⟨-, k1, k2, k3⟩ :=
      execAll_pins ops B calls (Adafruit_FRAM_SPI.software clk miso mosi cs junk)
        (Run.start world)
    have hs := execAll_byStrategy ops B calls
      (Adafruit_FRAM_SPI.software clk miso mosi cs junk) (Run.start world) (hempty _ _ _)
    refine ⟨Or.inr ⟨?_, ?_, ?_⟩, k1, k2, k3, fun e he => (hs e he).2 hclk⟩
    · rw [k1]; exact hclk
    · rw [k2]; exact hmosi
    · rw [k3]; exact hmiso

/-- C13 at a concrete input: pins 13, 12, 11 with chip-select 10, after `begin`, a write
and a read. -/
theorem C13_bus_configuration_whole_witness :
    WholeConfig (Op.execAll Opcodes.fujitsu scriptBoard
      [Op.begin, Op.write8 0x10 0xAB, Op.read8 0x10]
      (Adafruit_FRAM_SPI.software 13 12 11 10 2) (Run.start [])).1 :=
  (C13_bus_configuration_whole Opcodes.fujitsu scriptBoard []
    [Op.begin, Op.write8 0x10 0xAB, Op.read8 0x10] 10 13 12 11 2
    (by decide) (by decide) (by decide)).2.1

/-- C13 fails as stated. The software-SPI constructor stores the pins it is given
without validation: called with clock `-1` and data pins 12 and 11 it yields a state
with only two of the three pins set, which transfers through the hardware strategy;
the same happens with clock `255`, which an `int8_t` holds as `-1`; called with data-in
`-1` it yields a state with clock and data-out set and data-in unset. -/
theorem C13_bus_configuration_counterexample :
    ¬ WholeConfig (Adafruit_FRAM_SPI.software (-1) 12 11 10 2) ∧
    (Adafruit_FRAM_SPI.software (-1) 12 11 10 2)._clk = -1 ∧
    (Adafruit_FRAM_SPI.software (-1) 12 11 10 2)._mosi = 11 ∧
    (wires (SPItransfer scriptBoard (Adafruit_FRAM_SPI.software (-1) 12 11 10 2) 0xA5
      (Run.start [0x5A])).2.trace = [Wire.spiTransfer 0xA5 0x5A]) ∧
    ¬ WholeConfig (Adafruit_FRAM_SPI.software 255 12 11 10 2) ∧
    (Adafruit_FRAM_SPI.software 255 12 11 10 2)._clk = -1 ∧
    ¬ WholeConfig (Adafruit_FRAM_SPI.software 13 (-1) 11 10 2) := by
  decide

/-- C14. The software exchange is the reference MSB-first exchange: in software mode
with data-out on a line of its own, for every byte `x` and every eight bits `b7 … b0`
sampled on data-in, it returns `b7*128 + … + b0` and presents bit 7, …, bit 0 of `x` on
data-out in that order, exactly as `referenceExchange` does; with data-in looped back to
data-out it returns `x`, the byte the hardware strategy receives there. -/
theorem C14_software_exchange_is_reference (self : Adafruit_FRAM_SPI) (x : Nat)
    (b7 b6 b5 b4 b3 b2 b1 b0 : Bool) (level : Nat) (cs : Int)
    (hsw : self._clk ≠ -1) (hm : self._mosi ≠ self._clk) :
    (SPItransfer scriptBoard self x (Run.start [b7.toNat, b6.toNat, b5.toNat, b4.toNat,
        b3.toNat, b2.toNat, b1.toNat, b0.toNat])).1
      = b7.toNat * 128 + b6.toNat * 64 + b5.toNat * 32 + b4.toNat * 16 + b3.toNat * 8
        + b2.toNat * 4 + b1.toNat * 2 + b0.toNat ∧
    (presented self._mosi (wires (SPItransfer scriptBoard self x
        (Run.start [b7.toNat, b6.toNat, b5.toNat, b4.toNat, b3.toNat, b2.toNat, b1.toNat,
          b0.toNat])).2.trace),
     (SPItransfer scriptBoard self x (Run.start [b7.toNat, b6.toNat, b5.toNat, b4.toNat,
        b3.toNat, b2.toNat, b1.toNat, b0.toNat])).1)
      = referenceExchange (x % 256) [b7, b6, b5, b4, b3, b2, b1, b0] ∧
    (referenceExchange (x % 256) [b7, b6, b5, b4, b3, b2, b1, b0]).1
      = [(x % 256).testBit 7, (x % 256).testBit 6, (x % 256).testBit 5, (x % 256).testBit 4,
         (x % 256).testBit 3, (x % 256).testBit 2, (x % 256).testBit 1, (x % 256).testBit 0] ∧
    (SPItransfer (loopbackBoard self._mosi self._miso) self x (Run.start level)).1 = x % 256 ∧
    (SPItransfer (loopbackBoard self._mosi self._miso) (Adafruit_FRAM_SPI.hardware cs) x
        (Run.start level)).1
      = (SPItransfer (loopbackBoard self._mosi self._miso) self x (Run.start level)).1 := by
  have hloop := SPItransfer_loop_script self (x % 256) 8 0
    [b7.toNat, b6.toNat, b5.toNat, b4.toNat, b3.toNat, b2.toNat, b1.toNat, b0.toNat] []
    (by simp)
  rw [List.take_of_length_le (by simp), foldl_shift_or _ 0 (by simp)] at hloop
  have hres : (SPItransfer scriptBoard self x (Run.start [b7.toNat, b6.toNat, b5.toNat,
      b4.toNat, b3.toNat, b2.toNat, b1.toNat, b0.toNat])).1
      = b7.toNat * 128 + b6.toNat * 64 + b5.toNat * 32 + b4.toNat * 16 + b3.toNat * 8
        + b2.toNat * 4 + b1.toNat * 2 + b0.toNat := by
    simp only [SPItransfer, hsw, if_false, Run.start, hloop]
    exact assemble_bits b7 b6 b5 b4 b3 b2 b1 b0
  have hpres : presented self._mosi (wires (SPItransfer scriptBoard self x
      (Run.start [b7.toNat, b6.toNat, b5.toNat, b4.toNat, b3.toNat, b2.toNat, b1.toNat,
        b0.toNat])).2.trace)
      = (List.range 8).reverse.map (fun i => (x % 256).testBit i) := by
    simp only [SPItransfer, hsw, if_false, Run.start, hloop, List.nil_append, wires,
      List.append_nil]
    exact presented_bitBang _ _ _ hm _ 8 _ (by simp)
  have hsoft : (SPItransfer (loopbackBoard self._mosi self._miso) self x
      (Run.start level)).1 = x % 256 := by
    simp only [SPItransfer, hsw, if_false]
    exact SPItransfer_loop_loopback self (x % 256) (Nat.mod_lt _ (by norm_num)) hm 8
      (by norm_num) 0 _ _ (by
        have := Nat.mod_lt x (show 256 > 0 by norm_num)
        simp)
  refine ⟨hres, ?_, rfl, hsoft, ?_⟩
  · rw [hpres, hres]
    simp only [referenceExchange, List.foldl]
    congr 1
    omega
  · rw [hsoft]
    simp [SPItransfer, Adafruit_FRAM_SPI.hardware, loopbackBoard]

/-- C14 at a concrete input: the byte `0xA5` exchanged on pins 13, 12, 11 while data-in
delivers `1,1,0,0,0,0,1,1`, and the same byte in loopback. -/
theorem C14_software_exchange_is_reference_witness :
    (SPItransfer scriptBoard (Adafruit_FRAM_SPI.software 13 12 11 10 2) 0xA5
        (Run.start [1, 1, 0, 0, 0, 0, 1, 1])).1 = 0xC3 ∧
    (SPItransfer (loopbackBoard 11 12) (Adafruit_FRAM_SPI.software 13 12 11 10 2) 0xA5
        (Run.start 0)).1 = 0xA5 :=
  ⟨(C14_software_exchange_is_reference (Adafruit_FRAM_SPI.software 13 12 11 10 2) 0xA5
      true true false false false false true true 0 10 (by decide) (by decide)).1,
   (C14_software_exchange_is_reference (Adafruit_FRAM_SPI.software 13 12 11 10 2) 0xA5
      true true false false false false true true 0 10 (by decide) (by decide)).2.2.2.1⟩

/-- C15. In software mode, for every byte `x` and whatever is sampled, one byte exchange
makes exactly the runtime calls of `bitBang`: for `i = 7` down to `0`, clock low, data-out
to `x & (1 << i)` (high exactly when bit `i` of `x` is set), clock high, sample data-in;
the byte returned is assembled from the eight samples.  Data-out is thus written right
after the clock went low and data-in is read right after the clock went high, and when
chip-select is a line of its own no call names the chip-select pin. -/
theorem C15_software_exchange_pin_trace (B : Board σ) (self : Adafruit_FRAM_SPI) (x : Nat)
    (world : σ) (hsw : self._clk ≠ -1) :
    (∃ bs : List Nat, bs.length = 8 ∧
      (SPItransfer B self x (Run.start world)).1 = assemble bs ∧
      (SPItransfer B self x (Run.start world)).2.trace
        = [Event.exchange (x % 256) (assemble bs)
            (bitBang self._clk self._mosi self._miso (x % 256) 8 bs)] ∧
      wires (SPItransfer B self x (Run.start world)).2.trace
        = bitBang self._clk self._mosi self._miso (x % 256) 8 bs) ∧
    (∀ (clk mosi miso : Int) (X b7 b6 b5 b4 b3 b2 b1 b0 : Nat),
      bitBang clk mosi miso X 8 [b7, b6, b5, b4, b3, b2, b1, b0]
        = [Wire.digitalWrite clk LOW, Wire.digitalWrite mosi (X &&& (1 <<< 7)),
           Wire.digitalWrite clk HIGH, Wire.digitalRead miso b7,
           Wire.digitalWrite clk LOW, Wire.digitalWrite mosi (X &&& (1 <<< 6)),
           Wire.digitalWrite clk HIGH, Wire.digitalRead miso b6,
           Wire.digitalWrite clk LOW, Wire.digitalWrite mosi (X &&& (1 <<< 5)),
           Wire.digitalWrite clk HIGH, Wire.digitalRead miso b5,
           Wire.digitalWrite clk LOW, Wire.digitalWrite mosi (X &&& (1 <<< 4)),
           Wire.digitalWrite clk HIGH, Wire.digitalRead miso b4,
           Wire.digitalWrite clk LOW, Wire.digitalWrite mosi (X &&& (1 <<< 3)),
           Wire.digitalWrite clk HIGH, Wire.digitalRead miso b3,
           Wire.digitalWrite clk LOW, Wire.digitalWrite mosi (X &&& (1 <<< 2)),
           Wire.digitalWrite clk HIGH, Wire.digitalRead miso b2,
           Wire.digitalWrite clk LOW, Wire.digitalWrite mosi (X &&& (1 <<< 1)),
           Wire.digitalWrite clk HIGH, Wire.digitalRead miso b1,
           Wire.digitalWrite clk LOW, Wire.digitalWrite mosi (X &&& (1 <<< 0)),
           Wire.digitalWrite clk HIGH, Wire.digitalRead miso b0]) ∧
    (∀ i : Nat, ((x % 256) &&& (1 <<< i) ≠ 0) ↔ (x % 256).testBit i = true) ∧
    (self._cs ≠ self._clk → self._cs ≠ self._mosi → self._cs ≠ self._miso →
      ∀ e ∈ wires (SPItransfer B self x (Run.start world)).2.trace,
        e.pin ≠ some self._cs) := by
  obtain ⟨bs, hl, hres, htr⟩ := SPItransfer_software B self x (Run.start world) hsw
  have hw : wires (SPItransfer B self x (Run.start world)).2.trace
      = bitBang self._clk self._mosi self._miso (x % 256) 8 bs := by
    rw [htr]; simp [Run.start, wires]
  refine ⟨⟨bs, hl, hres, by rw [htr]; rfl, hw⟩, ?_, fun i => and_bit_testBit _ i, ?_⟩
  · intro clk mosi miso X b7 b6 b5 b4 b3 b2 b1 b0
    rfl
  · intro h1 h2 h3 e he
    rw [hw] at he
    rcases bitBang_pin _ _ _ _ _ _ e he with h | h | h <;>
      · rw [h]
        intro hc
        injection hc with hc
        first | exact h1 hc.symm | exact h2 hc.symm | exact h3 hc.symm

/-- C15 at a concrete input: the byte `0xA5` bit-banged on pins 13 (clock), 11 (data-out),
12 (data-in) while the data-in line delivers `1,1,0,0,0,0,1,1`. -/
theorem C15_software_exchange_pin_trace_witness :
    ∃ bs : List Nat, bs.length = 8 ∧
      (SPItransfer scriptBoard (Adafruit_FRAM_SPI.software 13 12 11 10 2) 0xA5
        (Run.start [1, 1, 0, 0, 0, 0, 1, 1])).1 = assemble bs ∧
      (SPItransfer scriptBoard (Adafruit_FRAM_SPI.software 13 12 11 10 2) 0xA5
        (Run.start [1, 1, 0, 0, 0, 0, 1, 1])).2.trace
        = [Event.exchange (0xA5 % 256) (assemble bs) (bitBang 13 11 12 (0xA5 % 256) 8 bs)] ∧
      wires (SPItransfer scriptBoard (Adafruit_FRAM_SPI.software 13 12 11 10 2) 0xA5
        (Run.start [1, 1, 0, 0, 0, 0, 1, 1])).2.trace = bitBang 13 11 12 (0xA5 % 256) 8 bs :=
  (C15_software_exchange_pin_trace scriptBoard (Adafruit_FRAM_SPI.software 13 12 11 10 2)
    0xA5 [1, 1, 0, 0, 0, 0, 1, 1] (by decide)).1

/-- C16. The initialisation flag gates nothing.  For every call other than `begin`, a
run from the state with the flag replaced by any value returns the same value and leaves
the same board state and trace as the run from the original state, and the flag comes out
as it went in; `begin` returns the same value and leaves the same run whatever the flag
was, and sets it.  The flag is `false` after either constructor. -/
theorem C16_flag_gates_nothing (ops : Opcodes) (B : Board σ) (self : Adafruit_FRAM_SPI)
    (flag : Bool) (r : Run σ) (op : Op) (cs clk miso mosi : Int) (junk : Nat) :
    (op ≠ Op.begin →
      op.exec ops B { self with _framInitialised := flag } r
        = ((op.exec ops B self r).1,
           { (op.exec ops B self r).2.1 with _framInitialised := flag },
           (op.exec ops B self r).2.2)) ∧
    (op ≠ Op.begin →
      (op.exec ops B self r).2.1._framInitialised = self._framInitialised) ∧
    ((Op.begin.exec ops B { self with _framInitialised := flag } r).1
        = (Op.begin.exec ops B self r).1 ∧
     (Op.begin.exec ops B { self with _framInitialised := flag } r).2.2
        = (Op.begin.exec ops B self r).2.2 ∧
     (Op.begin.exec ops B self r).2.1._framInitialised = true) ∧
    (Adafruit_FRAM_SPI.hardware cs)._framInitialised = false ∧
    (Adafruit_FRAM_SPI.software clk miso mosi cs junk)._framInitialised = false := by
  obtain ⟨h1, h2, h3, h4, h5, h6, h7⟩ :=
    operations_congr ops B _ self (sameFraming_flag self flag) r
  obtain ⟨hb1, hb2⟩ := begin_congr ops B _ self (sameFraming_flag self flag) r
  refine ⟨?_, ?_, ⟨?_, ?_, ?_⟩, rfl, rfl⟩
  · intro hne
    cases op with
    | begin => exact absurd rfl hne
    | getAddressLengthInBytes => rfl
    | setAddressLengthInBytes value => rfl
    | writeEnable enable => simp only [Op.exec, h1]
    | write8 addr value => simp only [Op.exec, h2]
    | write addr values count => simp only [Op.exec, h3]
    | read8 addr => simp only [Op.exec, h4]
    | getDeviceID => simp only [Op.exec, h5]
    | getStatusRegister => simp only [Op.exec, h6]
    | setStatusRegister value => simp only [Op.exec, h7]
  · intro hne
    cases op with
    | begin => exact absurd rfl hne
    | _ => rfl
  · simp only [Op.exec, hb1]
  · simp only [Op.exec, hb2]
  · simp only [Op.exec, begin_self]

/-- C17. The address-width accessors are a plain get/set without validation: after
`setAddressLengthInBytes(n)` the getter returns `n` as a `uint8_t`, so `n` itself for
every 8-bit value, `0` and values above `3` included; the setter changes no pin and not
the initialisation flag, and neither call touches the board or adds to the trace. -/
theorem C17_address_width_accessors (ops : Opcodes) (B : Board σ) (self : Adafruit_FRAM_SPI)
    (r : Run σ) (n : Nat) :
    getAddressLengthInBytes (setAddressLengthInBytes self n) = n % 256 ∧
    (n < 256 → getAddressLengthInBytes (setAddressLengthInBytes self n) = n) ∧
    (Op.getAddressLengthInBytes.exec ops B
        ((Op.setAddressLengthInBytes n).exec ops B self r).2.1
        ((Op.setAddressLengthInBytes n).exec ops B self r).2.2).1 = Ret.byte (n % 256) ∧
    ((setAddressLengthInBytes self n)._cs = self._cs ∧
     (setAddressLengthInBytes self n)._clk = self._clk ∧
     (setAddressLengthInBytes self n)._mosi = self._mosi ∧
     (setAddressLengthInBytes self n)._miso = self._miso ∧
     (setAddressLengthInBytes self n)._framInitialised = self._framInitialised) ∧
    ((Op.setAddressLengthInBytes n).exec ops B self r).2.2 = r ∧
    (Op.getAddressLengthInBytes.exec ops B self r).2 = (self, r) :=
  ⟨rfl, fun h => Nat.mod_eq_of_lt h, rfl, ⟨rfl, rfl, rfl, rfl, rfl⟩, rfl, rfl⟩

/-- C18. The bus configuration is immutable after construction: every call leaves the
chip-select, clock, data-out and data-in pin assignments as they were, so does every
sequence of calls, and every byte exchange made along the sequence goes through the
strategy selected by the clock pin the object was constructed with (hardware exactly
when it is `-1`). -/
theorem C18_bus_configuration_immutable (ops : Opcodes) (B : Board σ)
    (self : Adafruit_FRAM_SPI) (r : Run σ) (world : σ) (op : Op) (calls : List Op) :
    ((op.exec ops B self r).2.1._cs = self._cs ∧
     (op.exec ops B self r).2.1._clk = self._clk ∧
     (op.exec ops B self r).2.1._mosi = self._mosi ∧
     (op.exec ops B self r).2.1._miso = self._miso) ∧
    ((Op.execAll ops B calls self r).1._cs = self._cs ∧
     (Op.execAll ops B calls self r).1._clk = self._clk ∧
     (Op.execAll ops B calls self r).1._mosi = self._mosi ∧
     (Op.execAll ops B calls self r).1._miso = self._miso) ∧
    (self._clk = -1 →
      ∀ e ∈ (Op.execAll ops B calls self (Run.start world)).2.trace, e.hardware) ∧
    (self._clk ≠ -1 →
      ∀ e ∈ (Op.execAll ops B calls self (Run.start world)).2.trace,
        e.software self._clk self._mosi self._miso) ∧
    (∀ x (q : Run σ), self._clk = -1 →
      (SPItransfer B (Op.execAll ops B calls self r).1 x q).1
        = (B.spiTransfer (x % 256) q.world).1 % 256) := by
  have hempty : ByStrategy self._clk self._mosi self._miso (Run.start world).trace := by
    intro e he
    simp [Run.start] at he
  have hs := execAll_byStrategy ops B calls self (Run.start world) hempty
  refine ⟨exec_pins ops B op self r, execAll_pins ops B calls self r,
    fun hc e he => (hs e he).1 hc, fun hc e he => (hs e he).2 hc, ?_⟩
  intro x q hc
  exact (SPItransfer_hardware B _ x q ((execAll_pins ops B calls self r).2.1.trans hc)).1

/-- C19. Address widths outside `{1,2,3}` are clamped in effect.  With width `0` each of
`write8`, `write` and `read8` runs exactly as with width `1` (one address byte,
`A & 0xFF`), with any 8-bit width `n > 3` exactly as with width `3`; for every 8-bit `n`
the frame carries the `min(max(n,1),3)` address bytes of the clamped width. -/
theorem C19_width_clamped_in_effect (ops : Opcodes) (B : Board σ) (self : Adafruit_FRAM_SPI)
    (r : Run σ) (world : σ) (A v : Nat) (values : List Nat) (count n : Nat) (hn : n < 256) :
    (write8 ops B (setAddressLengthInBytes self 0) A v r
        = write8 ops B (setAddressLengthInBytes self 1) A v r ∧
     write ops B (setAddressLengthInBytes self 0) A values count r
        = write ops B (setAddressLengthInBytes self 1) A values count r ∧
     read8 ops B (setAddressLengthInBytes self 0) A r
        = read8 ops B (setAddressLengthInBytes self 1) A r) ∧
    (3 < n →
     write8 ops B (setAddressLengthInBytes self n) A v r
        = write8 ops B (setAddressLengthInBytes self 3) A v r ∧
     write ops B (setAddressLengthInBytes self n) A values count r
        = write ops B (setAddressLengthInBytes self 3) A values count r ∧
     read8 ops B (setAddressLengthInBytes self n) A r
        = read8 ops B (setAddressLengthInBytes self 3) A r) ∧
    txBytes (write8 ops B (setAddressLengthInBytes self 0) A v (Run.start world)).trace
      = [ops.OPCODE_WRITE % 256, A % 256, v % 256] ∧
    (txBytes (write8 ops B (setAddressLengthInBytes self n) A v (Run.start world)).trace
      = [ops.OPCODE_WRITE % 256] ++ addressBytes (min (max n 1) 3) (A % 65536) ++ [v % 256] ∧
     txBytes (read8 ops B (setAddressLengthInBytes self n) A (Run.start world)).2.trace
      = [ops.OPCODE_READ % 256] ++ addressBytes (min (max n 1) 3) (A % 65536) ++ [0] ∧
     (count ≤ values.length →
      txBytes (write ops B (setAddressLengthInBytes self n) A values count
          (Run.start world)).trace
        = [ops.OPCODE_WRITE % 256] ++ addressBytes (min (max n 1) 3) (A % 65536)
          ++ (values.take count).map (fun b => b % 256))) ∧
    (addressBytes (min (max n 1) 3) (A % 65536)).length = min (max n 1) 3 := by
  have h01 : SameFraming (setAddressLengthInBytes self 0) (setAddressLengthInBytes self 1) :=
    ⟨rfl, rfl, rfl, rfl, by simp [setAddressLengthInBytes], by simp [setAddressLengthInBytes]⟩
  have hs : (setAddressLengthInBytes self n)._addressLengthInBytes = n := by
    simp [setAddressLengthInBytes, Nat.mod_eq_of_lt hn]
  have hs0 : (setAddressLengthInBytes self 0)._addressLengthInBytes = 0 := rfl
  have hb0 : sentAddress 0 (A % 65536) = [A % 256] := by
    rw [sentAddress_eq_addressBytes_clamp]
    simp [addressBytes, List.range_succ]
    omega
  obtain ⟨-, a2, a3, a4, -, -, -⟩ := operations_congr ops B _ _ h01 r
  refine ⟨⟨a2 A v, a3 A values count, a4 A⟩, ?_, ?_, ⟨?_, ?_, ?_⟩, addressBytes_length _ _⟩
  · intro h3
    have hn3 : SameFraming (setAddressLengthInBytes self n) (setAddressLengthInBytes self 3) :=
      ⟨rfl, rfl, rfl, rfl,
        by simp [setAddressLengthInBytes, Nat.mod_eq_of_lt hn]; omega,
        by simp [setAddressLengthInBytes, Nat.mod_eq_of_lt hn]; omega⟩
    obtain ⟨-, b2, b3, b4, -, -, -⟩ := operations_congr ops B _ _ hn3 r
    exact ⟨b2 A v, b3 A values count, b4 A⟩
  · simp [write8_eq, txBytes_digitalWrite, txBytes_SPItransfer, txBytes_sendAddress, hs0, hb0,
      Run.start, txBytes]
  · simp [write8_eq, txBytes_digitalWrite, txBytes_SPItransfer, txBytes_sendAddress, hs,
      sentAddress_eq_addressBytes_clamp, Run.start, txBytes]
  · simp [read8_eq, txBytes_digitalWrite, txBytes_SPItransfer, txBytes_sendAddress, hs,
      sentAddress_eq_addressBytes_clamp, Run.start, txBytes]
  · intro hc
    simp [write_eq, txBytes_digitalWrite, txBytes_SPItransfer, txBytes_sendAddress, hs,
      txBytes_write_loop _ _ _ _ _ _ (show 0 + count ≤ values.length by omega),
      sentAddress_eq_addressBytes_clamp, Run.start, txBytes]

/-- C19 at a concrete input: with width `200` the frame of `read8(0x1234)` is that of
width `3`. -/
theorem C19_width_clamped_in_effect_witness :
    txBytes (read8 Opcodes.fujitsu scriptBoard
        (setAddressLengthInBytes (Adafruit_FRAM_SPI.hardware 10) 200) 0x1234
        (Run.start [])).2.trace = [0x03, 0x00, 0x12, 0x34, 0] :=
  (C19_width_clamped_in_effect Opcodes.fujitsu scriptBoard (Adafruit_FRAM_SPI.hardware 10)
    (Run.start []) [] 0x1234 0 [] 0 200 (by decide)).2.2.2.1.2.1

/-- C20. A one-byte block write is the single-byte write: for every controller state,
`write(A, [v], 1)` runs exactly as `write8(A, v)` (same board state, same trace), and the
trace of `write(A, values, 0)` is that of `write8(A, v)` with the data exchange removed:
chip-select low, `WRITE` opcode, address bytes, chip-select high. -/
theorem C20_write_one_is_write8 (ops : Opcodes) (B : Board σ) (self : Adafruit_FRAM_SPI)
    (r : Run σ) (world : σ) (A v : Nat) (values : List Nat) :
    write ops B self A [v] 1 r = write8 ops B self A v r ∧
    (∃ (pre : List Event) (e : Event),
      (write8 ops B self A v r).trace
        = pre ++ [e, Event.call (Wire.digitalWrite self._cs HIGH)] ∧
      e.out = Out.byte (v % 256) ∧
      (write ops B self A values 0 r).trace
        = pre ++ [Event.call (Wire.digitalWrite self._cs HIGH)]) ∧
    outs (write ops B self A values 0 (Run.start world)).trace
      = [Out.pin (Wire.digitalWrite self._cs LOW), Out.byte (ops.OPCODE_WRITE % 256)]
        ++ (sentAddress self._addressLengthInBytes (A % 65536)).map Out.byte
        ++ [Out.pin (Wire.digitalWrite self._cs HIGH)] := by
  refine ⟨?_, ?_, ?_⟩
  · rw [write_eq, write8_eq]
    simp only [write_loop, List.getD_cons_zero, SPItransfer_mod]
  · obtain ⟨inner, htr, -⟩ := SPItransfer_trace B self (v % 256)
      (sendAddress B self (A % 65536)
        (SPItransfer B self ops.OPCODE_WRITE (digitalWrite B self._cs LOW r)).2)
    refine ⟨(sendAddress B self (A % 65536)
        (SPItransfer B self ops.OPCODE_WRITE (digitalWrite B self._cs LOW r)).2).trace,
      Event.exchange (v % 256 % 256)
        (SPItransfer B self (v % 256)
          (sendAddress B self (A % 65536)
            (SPItransfer B self ops.OPCODE_WRITE (digitalWrite B self._cs LOW r)).2)).1
        inner, ?_, ?_, ?_⟩
    · rw [write8_eq, trace_digitalWrite, htr]
      simp only [List.append_assoc, List.singleton_append]
    · simp [Event.out]
    · rw [write_eq, trace_digitalWrite]
      simp only [write_loop]
  · simp [write_eq, write_loop, outs_digitalWrite, outs_SPItransfer, outs_sendAddress,
      Run.start, outs_nil]

end Claims

end FRAM
